import Mathlib

/-!
Verification development for the VMFMergeTool repository (vmf.py, vmfdelta.py,
vmfmerge.py).  The Python source is shallowly embedded: every definition below
is a direct transcription of a source function, with Python dictionaries
modelled as insertion-ordered association lists, Python exceptions modelled by
`Option`/`Except`/explicit error constructors, and the object-identity (`is`)
checks of the source modelled by a `tag` field that uniquely numbers the delta
objects fed to the merge (distinct Python objects get distinct tags).
-/

set_option autoImplicit false

namespace VMFTool

/-- The six VMF object classes (vmf.py `VMF.CLASSES`). -/
inductive VmfClass where
  | world
  | solid
  | side
  | group
  | entity
  | visgroup
deriving DecidableEq, Repr

/-- The class-tag string used as a key in the raw VMF tree (vmf.py
`VMF.WORLD` .. `VMF.VISGROUP`). -/
def className : VmfClass → String
  | .world => "world"
  | .solid => "solid"
  | .side => "side"
  | .group => "group"
  | .entity => "entity"
  | .visgroup => "visgroup"

/-- A value in the parsed VDF tree.  `str` and `obj` come from the parser;
`int` appears when `apply_deltas` writes raw integers (ids, mapversion);
`list` models Python lists produced for repeated keys; `ref c id` is our
representation of the aliasing in the source: a class object (world, solid,
side, group, entity, visgroup) is stored once in its per-class table and the
raw tree holds a reference to it, exactly as the Python tree and the
`solidsById` etc. dictionaries alias the same dict object. -/
inductive Vdf where
  | str : String → Vdf
  | int : Int → Vdf
  | ref : VmfClass → Int → Vdf
  | obj : List (String × Vdf) → Vdf
  | list : List Vdf → Vdf
deriving Repr

/-- A VMF object: an insertion-ordered dictionary (vmf.py objects are
`OrderedDict`s). -/
abbrev Obj := List (String × Vdf)

mutual
/-- Decidable structural equality for `Vdf` (Python `==` on the parsed data). -/
def Vdf.beq : Vdf → Vdf → Bool
  | .str a, .str b => a == b
  | .int a, .int b => a == b
  | .ref c a, .ref d b => c == d && a == b
  | .obj a, .obj b => Vdf.beqEntries a b
  | .list a, .list b => Vdf.beqList a b
  | _, _ => false

/-- Pointwise equality of object entry lists. -/
def Vdf.beqEntries : List (String × Vdf) → List (String × Vdf) → Bool
  | [], [] => true
  | (k, v) :: xs, (k', v') :: ys => k == k' && Vdf.beq v v' && Vdf.beqEntries xs ys
  | _, _ => false

/-- Pointwise equality of value lists. -/
def Vdf.beqList : List Vdf → List Vdf → Bool
  | [], [] => true
  | x :: xs, y :: ys => Vdf.beq x y && Vdf.beqList xs ys
  | _, _ => false
end

instance : BEq Vdf := ⟨Vdf.beq⟩

mutual
/-- `Vdf.beq` really is equality. -/
theorem Vdf.beq_iff : ∀ a b : Vdf, Vdf.beq a b = true ↔ a = b
  | .str a, b => by cases b <;> simp [Vdf.beq]
  | .int a, b => by cases b <;> simp [Vdf.beq]
  | .ref c a, b => by cases b <;> simp [Vdf.beq]
  | .obj a, b => by
      cases b <;> simp [Vdf.beq]
      exact Vdf.beqEntries_iff a _
  | .list a, b => by
      cases b <;> simp [Vdf.beq]
      exact Vdf.beqList_iff a _

/-- Entry-list equality test is equality. -/
theorem Vdf.beqEntries_iff : ∀ a b : List (String × Vdf), Vdf.beqEntries a b = true ↔ a = b
  | [], b => by cases b <;> simp [Vdf.beqEntries]
  | (k, v) :: xs, b => by
      cases b with
      | nil => simp [Vdf.beqEntries]
      | cons hd tl =>
        obtain ⟨k', v'⟩ := hd
        simp [Vdf.beqEntries, Vdf.beq_iff v v', Vdf.beqEntries_iff xs tl, and_assoc]

/-- Value-list equality test is equality. -/
theorem Vdf.beqList_iff : ∀ a b : List Vdf, Vdf.beqList a b = true ↔ a = b
  | [], b => by cases b <;> simp [Vdf.beqList]
  | x :: xs, b => by
      cases b with
      | nil => simp [Vdf.beqList]
      | cons hd tl => simp [Vdf.beqList, Vdf.beq_iff x hd, Vdf.beqList_iff xs tl]
end

instance : DecidableEq Vdf := fun a b =>
  decidable_of_iff (Vdf.beq a b = true) (Vdf.beq_iff a b)

instance : LawfulBEq Vdf where
  eq_of_beq h := (Vdf.beq_iff _ _).mp h
  rfl := (Vdf.beq_iff _ _).mpr rfl

instance {ε α : Type} [DecidableEq ε] [DecidableEq α] : DecidableEq (Except ε α)
  | .ok a, .ok b =>
      if h : a = b then .isTrue (congrArg _ h)
      else .isFalse (fun he => h (Except.ok.inj he))
  | .error a, .error b =>
      if h : a = b then .isTrue (congrArg _ h)
      else .isFalse (fun he => h (Except.error.inj he))
  | .ok _, .error _ => .isFalse Except.noConfusion
  | .error _, .ok _ => .isFalse Except.noConfusion

/-- The closed delta algebra of vmfdelta.py.  Property keys are modelled as
paths (lists of key segments); the source joins the segments with the
delimiter `'"::"'`, a sequence that cannot occur inside VMF field text, so the
joined-string representation used by the source is in bijection with these
paths.  `MoveVisGroup` is included because `compare_vmfs` (vmf.py) constructs
it, even though the corresponding Python class is commented out in
vmfdelta.py (so importing vmf.py actually fails with ImportError) and
`merge_delta_lists` has no bucket for it (feeding one raises KeyError). -/
inductive Delta where
  | AddObject (parent : Option (VmfClass × Int)) (vmfClass : VmfClass) (id : Int)
  | RemoveObject (vmfClass : VmfClass) (id : Int)
      (cascadedRemovals : Option (List (VmfClass × Int)))
  | ChangeObject (vmfClass : VmfClass) (id : Int)
  | AddProperty (vmfClass : VmfClass) (id : Int) (key : List String) (value : Vdf)
  | RemoveProperty (vmfClass : VmfClass) (id : Int) (key : List String)
  | ChangeProperty (vmfClass : VmfClass) (id : Int) (key : List String) (value : Vdf)
  | TieSolid (solidId : Int) (entityId : Int)
  | UntieSolid (solidId : Int)
  | AddOutput (entityId : Int) (output : String) (value : String) (outputId : Nat)
  | RemoveOutput (entityId : Int) (output : String) (value : String) (outputId : Nat)
  | ReparentObject (parent : Option (VmfClass × Int)) (vmfClass : VmfClass) (id : Int)
  | AddToVisGroup (vmfClass : VmfClass) (id : Int) (visGroupId : Int)
  | RemoveFromVisGroup (vmfClass : VmfClass) (id : Int) (visGroupId : Int)
  | MoveVisGroup (visGroupId : Int) (parentId : Option Int)
deriving DecidableEq, Repr

/-- VMFDelta.__eq__: two deltas are equivalent when they have the same type
and the same `_equiv_attrs` tuple (vmfdelta.py lines 46-70).  Payload fields
that are not part of the equivalence key (AddObject.parent,
RemoveObject.cascadedRemovals, AddProperty/ChangeProperty.value,
TieSolid.entityId) are ignored. -/
def dEquiv : Delta → Delta → Bool
  | .AddObject _ c i, .AddObject _ c' i' => c == c' && i == i'
  | .RemoveObject c i _, .RemoveObject c' i' _ => c == c' && i == i'
  | .ChangeObject c i, .ChangeObject c' i' => c == c' && i == i'
  | .AddProperty c i k _, .AddProperty c' i' k' _ => c == c' && i == i' && k == k'
  | .RemoveProperty c i k, .RemoveProperty c' i' k' => c == c' && i == i' && k == k'
  | .ChangeProperty c i k _, .ChangeProperty c' i' k' _ => c == c' && i == i' && k == k'
  | .TieSolid s _, .TieSolid s' _ => s == s'
  | .UntieSolid s, .UntieSolid s' => s == s'
  | .AddOutput e o v i, .AddOutput e' o' v' i' => e == e' && o == o' && v == v' && i == i'
  | .RemoveOutput e o v i, .RemoveOutput e' o' v' i' =>
      e == e' && o == o' && v == v' && i == i'
  | .ReparentObject _ c i, .ReparentObject _ c' i' => c == c' && i == i'
  | .AddToVisGroup c i g, .AddToVisGroup c' i' g' => c == c' && i == i' && g == g'
  | .RemoveFromVisGroup c i g, .RemoveFromVisGroup c' i' g' =>
      c == c' && i == i' && g == g'
  | .MoveVisGroup g _, .MoveVisGroup g' _ => g == g'
  | _, _ => false

/-- The `originVMF` back-pointer carried by every delta, restricted to the one
piece of the origin VMF that `merge` actually consults:
`originVMF.get_object_parent_info`, i.e. the `parentInfoForObject`
dictionary. -/
abbrev Origin := List ((VmfClass × Int) × (VmfClass × Int))

/-- Lookup in a `parentInfoForObject` dictionary (vmf.py
`get_object_parent_info`): `dict.get(key, None)`. -/
def originParentInfo (org : Origin) (c : VmfClass) (id : Int) :
    Option (VmfClass × Int) :=
  (org.find? (fun p => p.1 == (c, id))).map (·.2)

/-- A delta object as handled by the merge: the delta value, its `originVMF`
attribute, and a tag that stands for Python object identity (the `is`
checks of `add_conflicted_delta`).  Distinct objects in the input get distinct
tags. -/
structure TDelta where
  delta : Delta
  origin : Option Origin
  tag : Nat
deriving DecidableEq, Repr

/-- State of the merge: `mergedDeltasDict` (keys mapped to values, insertion
ordered — Python `OrderedDict`; assigning to an existing key keeps the key
object and its position and replaces the value) and `conflictedDeltasDict`
(each equivalence key mapped to the list of conflicted deltas equal to it). -/
structure MState where
  merged : List (TDelta × TDelta)
  conflicted : List (TDelta × List TDelta)
deriving DecidableEq, Repr

/-- The empty merge state. -/
def MState.init : MState := ⟨[], []⟩

/-- OrderedDict lookup by delta equivalence: returns the stored value. -/
def mergedLookup (m : List (TDelta × TDelta)) (d : Delta) : Option TDelta :=
  (m.find? (fun p => dEquiv p.1.delta d)).map (·.2)

/-- Python `delta in mergedDeltasDict`. -/
def mergedHas (m : List (TDelta × TDelta)) (d : Delta) : Bool :=
  (m.find? (fun p => dEquiv p.1.delta d)).isSome

/-- OrderedDict assignment `mergedDeltasDict[delta] = delta`: replace the
value at an existing equivalent key (keeping the original key object and its
position), else append a fresh entry at the end. -/
def mergedInsert (m : List (TDelta × TDelta)) (t : TDelta) : List (TDelta × TDelta) :=
  match m with
  | [] => [(t, t)]
  | (k, v) :: rest =>
      if dEquiv k.delta t.delta then (k, t) :: rest
      else (k, v) :: mergedInsert rest t

/-- OrderedDict deletion `del mergedDeltasDict[delta]`. -/
def mergedDelete (m : List (TDelta × TDelta)) (d : Delta) : List (TDelta × TDelta) :=
  match m with
  | [] => []
  | (k, v) :: rest =>
      if dEquiv k.delta d then rest
      else (k, v) :: mergedDelete rest d

/-- Lookup in `conflictedDeltasDict`. -/
def confLookup (cds : List (TDelta × List TDelta)) (d : Delta) : Option (List TDelta) :=
  (cds.find? (fun p => dEquiv p.1.delta d)).map (·.2)

/-- Python `delta in conflictedDeltasDict`. -/
def confHas (cds : List (TDelta × List TDelta)) (d : Delta) : Bool :=
  (cds.find? (fun p => dEquiv p.1.delta d)).isSome

/-- `conflictedDeltasDict[delta].append(delta)` with the KeyError fallback
`conflictedDeltasDict[delta] = [delta]` (vmfdelta.py lines 626-629). -/
def confAppend (cds : List (TDelta × List TDelta)) (t : TDelta) :
    List (TDelta × List TDelta) :=
  match cds with
  | [] => [(t, [t])]
  | (k, v) :: rest =>
      if dEquiv k.delta t.delta then (k, v ++ [t]) :: rest
      else (k, v) :: confAppend rest t

/-- `iter_processed_deltas` (vmfdelta.py lines 603-614): the merged value with
the given equivalence key, if any, followed by all conflicted deltas with that
key. -/
def iterProcessed (s : MState) (d : Delta) : List TDelta :=
  (mergedLookup s.merged d).toList ++ (confLookup s.conflicted d).getD []

/-- `add_conflicted_delta` (vmfdelta.py lines 616-629): if the delta is in the
merged dict and `is` (object identity, here: tag equality) the stored value,
delete it from the merged dict; then append it to the conflicted dict. -/
def addConflictedDelta (s : MState) (t : TDelta) : MState :=
  let merged :=
    match mergedLookup s.merged t.delta with
    | some v => if v.tag == t.tag then mergedDelete s.merged t.delta else s.merged
    | none => s.merged
  ⟨merged, confAppend s.conflicted t⟩

/-- `add_conflicted_tiesolid_delta` (vmfdelta.py lines 631-646).  The source
asserts that the argument is a `TieSolid`; both call sites guarantee this, so
the catch-all branch below is unreachable. -/
def addConflictedTieSolid (s : MState) (t : TDelta) : MState :=
  match t.delta with
  | .TieSolid _ entityId =>
      let s1 := addConflictedDelta s t
      match mergedLookup s1.merged (.AddObject none .entity entityId) with
      | some actual => addConflictedDelta s1 actual
      | none => s1
  | _ => s

/-- `cascade_removal_conflict` (vmfdelta.py lines 683-708), with explicit
fuel.  Each recursive call is preceded by removing the child delta from the
merged dict, so the recursion depth is bounded by the size of the merged dict
and the fuel (passed as `merged.length + 1` at the entry point) never runs
out; the fuel-exhaustion branch returns an error only to make the function
total.  The `assert` of the source (child removal neither merged nor already
conflicted) is modelled as an error. -/
def cascadeRemovalConflict : Nat → MState → TDelta → Except Unit MState
  | 0, _, _ => .error ()
  | fuel + 1, s, t =>
      match t.delta with
      | .RemoveObject _ _ (some cascadedRemovals) =>
          cascadedRemovals.foldlM
            (fun (s : MState) (ci : VmfClass × Int) =>
              match mergedLookup s.merged (.RemoveObject ci.1 ci.2 none) with
              | some childRemoval => do
                  let s' := addConflictedDelta s childRemoval
                  cascadeRemovalConflict fuel s' childRemoval
              | none =>
                  if confHas s.conflicted (.RemoveObject ci.1 ci.2 none) then .ok s
                  else .error ())
            s
      | _ => .ok s

/-- Value payload of an `AddProperty`/`ChangeProperty` delta (`delta.value`
attribute reads in the merge loops). -/
def propValue : Delta → Option Vdf
  | .AddProperty _ _ _ v => some v
  | .ChangeProperty _ _ _ v => some v
  | _ => none

/-- `entityId` payload of a `TieSolid` delta. -/
def tieSolidEntity : Delta → Option Int
  | .TieSolid _ e => some e
  | _ => none

/-- The body of `merge` (vmfdelta.py lines 648-896): attempt to merge one
delta into the state.  Errors model uncaught Python exceptions: the
`AttributeError` at line 712 when `delta.originVMF` is `None` in a
ChangeObject/RemoveObject conflict, and the asserts inside
`cascade_removal_conflict`. -/
def mergeStep (s : MState) (t : TDelta) : Except Unit MState :=
  match t.delta with
  | .ChangeObject c id =>
      match iterProcessed s (.RemoveObject c id none) with
      | [] => .ok (⟨mergedInsert s.merged t, s.conflicted⟩)
      | other :: _ => do
          let s1 := addConflictedDelta s t
          let s2 := addConflictedDelta s1 other
          let s3 ← cascadeRemovalConflict (s2.merged.length + 1) s2 other
          match t.origin with
          | none => .error ()
          | some org =>
              match originParentInfo org c id with
              | none => .ok s3
              | some (parentClass, parentId) =>
                  match mergedLookup s3.merged (.RemoveObject parentClass parentId none) with
                  | some parentRemoval => .ok (addConflictedDelta s3 parentRemoval)
                  | none => .ok s3
  | .AddProperty c id _ v =>
      if confHas s.conflicted (.ChangeObject c id)
          || confHas s.conflicted (.AddObject none c id) then
        .ok (addConflictedDelta s t)
      else
        match (iterProcessed s t.delta).find? (fun o => !(propValue o.delta == some v)) with
        | some other => .ok (addConflictedDelta (addConflictedDelta s t) other)
        | none => .ok ⟨mergedInsert s.merged t, s.conflicted⟩
  | .ChangeProperty c id k v =>
      if confHas s.conflicted (.ChangeObject c id) then
        .ok (addConflictedDelta s t)
      else if c == .visgroup && mergedHas s.merged (.RemoveObject .visgroup id none) then
        .ok s
      else
        match iterProcessed s (.RemoveProperty c id k) with
        | other :: _ => .ok (addConflictedDelta (addConflictedDelta s t) other)
        | [] =>
            match (iterProcessed s t.delta).find?
                (fun o => !(propValue o.delta == some v)) with
            | some other => .ok (addConflictedDelta (addConflictedDelta s t) other)
            | none => .ok ⟨mergedInsert s.merged t, s.conflicted⟩
  | .TieSolid solidId entityId =>
      if confHas s.conflicted (.ChangeObject .solid solidId) then
        .ok (addConflictedTieSolid s t)
      else
        match iterProcessed s (.RemoveObject .solid solidId none) with
        | _ :: _ => .ok (addConflictedTieSolid s t)
        | [] =>
            match (iterProcessed s t.delta).find?
                (fun o => !(tieSolidEntity o.delta == some entityId)) with
            | some other => .ok (addConflictedTieSolid (addConflictedTieSolid s t) other)
            | none => .ok ⟨mergedInsert s.merged t, s.conflicted⟩
  | .ReparentObject _ c id =>
      if mergedHas s.merged (.RemoveObject c id none) then .ok s
      else .ok ⟨mergedInsert s.merged t, s.conflicted⟩
  | .AddToVisGroup c id visGroupId =>
      if mergedHas s.merged (.RemoveObject .visgroup visGroupId none)
          || mergedHas s.merged (.RemoveObject c id none) then
        .ok s
      else if confHas s.conflicted (.AddObject none c id) then
        .ok (addConflictedDelta s t)
      else .ok ⟨mergedInsert s.merged t, s.conflicted⟩
  | _ => .ok ⟨mergedInsert s.merged t, s.conflicted⟩

/-- Position of a delta's type in the fixed `deltaTypes` tuple of
`merge_delta_lists` (vmfdelta.py lines 576-592).  `MoveVisGroup` is absent
from the tuple: looking it up raises KeyError, which we signal with the
sentinel 13. -/
def deltaTypeIndex : Delta → Nat
  | .AddObject .. => 0
  | .UntieSolid .. => 1
  | .RemoveObject .. => 2
  | .TieSolid .. => 3
  | .ChangeObject .. => 4
  | .AddProperty .. => 5
  | .RemoveProperty .. => 6
  | .ChangeProperty .. => 7
  | .AddOutput .. => 8
  | .RemoveOutput .. => 9
  | .ReparentObject .. => 10
  | .AddToVisGroup .. => 11
  | .RemoveFromVisGroup .. => 12
  | .MoveVisGroup .. => 13

/-- Stable insertion of `x` into an already-sorted list, after all entries
with a key less than or equal to `x`'s key. -/
def insertByKey {α : Type} (key : α → Nat) (x : α) : List α → List α
  | [] => [x]
  | y :: ys => if key y ≤ key x then y :: insertByKey key x ys else x :: y :: ys

/-- Stable ascending sort by a natural-number key (Python `list.sort(key=…)`
is stable; any stable sort by the same key produces the same list). -/
def stableSortByKey {α : Type} (key : α → Nat) (l : List α) : List α :=
  l.foldl (fun acc x => insertByKey key x acc) []

/-- Result of `merge_delta_lists`: a normal return, a `DeltaMergeConflict`
carrying the partial merged list and the conflicted list, or an uncaught
Python exception (AttributeError / KeyError / AssertionError). -/
inductive MergeResult where
  | ok (merged : List Delta)
  | conflict (partDeltas : List Delta) (conflictedDeltas : List Delta)
  | error
deriving DecidableEq, Repr

/-- The per-variant buckets of `merge_delta_lists` (`deltasForDeltaType`),
concatenated in the fixed variant order, with the RemoveObject bucket (index
2) reversed. -/
def bucketed (tagged : List TDelta) : List TDelta :=
  ((List.range 13).map fun i =>
    let bucket := tagged.filter (fun t => deltaTypeIndex t.delta == i)
    if i == 2 then bucket.reverse else bucket).flatten

/-- The bucketing pass of `merge_delta_lists` (vmfdelta.py lines 902-920)
followed by the merge loop: tag every input delta with its object identity,
group the deltas by type in the fixed variant order (reversing the
RemoveObject bucket) via `bucketed`, and fold `merge` over them.  `none`
models an uncaught exception (including the KeyError raised when a delta's
type has no bucket, i.e. `MoveVisGroup`). -/
def mergeProcess (deltaLists : List (List (Delta × Option Origin))) : Option MState :=
  let tagged : List TDelta :=
    (deltaLists.flatten.enum.map fun p => ⟨p.2.1, p.2.2, p.1⟩)
  if tagged.any (fun t => deltaTypeIndex t.delta == 13) then none
  else
    match (bucketed tagged).foldlM mergeStep MState.init with
    | .ok s => some s
    | .error _ => none

/-- `merge_delta_lists` (vmfdelta.py lines 560-940): process all deltas, then
return the merged keys if nothing conflicted, else raise `DeltaMergeConflict`
with the partial merged list and the flattened conflicted lists stably sorted
by variant order. -/
def mergeDeltaLists (deltaLists : List (List (Delta × Option Origin))) : MergeResult :=
  match mergeProcess deltaLists with
  | none => .error
  | some s =>
      let merged := s.merged.map (fun p => p.1.delta)
      if s.conflicted.isEmpty then .ok merged
      else
        let conflictedDeltas :=
          stableSortByKey (fun t => deltaTypeIndex t.delta)
            (s.conflicted.flatMap (fun p => p.2))
        .conflict merged (conflictedDeltas.map (·.delta))

/-- The concatenated input list reordered by the fixed variant ordering of
`merge_delta_lists` (AddObject, UntieSolid, RemoveObject, TieSolid,
ChangeObject, AddProperty, RemoveProperty, ChangeProperty, AddOutput,
RemoveOutput, ReparentObject, AddToVisGroup, RemoveFromVisGroup), keeping the
input order within each variant. -/
def variantOrder (l : List Delta) : List Delta :=
  ((List.range 13).map fun i => l.filter (fun d => deltaTypeIndex d == i)).flatten

/-! Helper lemmas about the merge dictionaries. -/

/-- Lookup in a diagonal merged dict misses every key the probe is not
equivalent to. -/
theorem mergedLookup_diag_none (done : List TDelta) (d : Delta)
    (h : ∀ u ∈ done, dEquiv u.delta d = false) :
    mergedLookup (done.map fun u => (u, u)) d = none := by
  induction done with
  | nil => rfl
  | cons u rest ih =>
      simp only [List.map_cons, mergedLookup, List.find?]
      rw [h u (by simp)]
      exact ih fun v hv => h v (by simp [hv])

/-- Membership in a diagonal merged dict fails for every key the probe is not
equivalent to. -/
theorem mergedHas_diag_false (done : List TDelta) (d : Delta)
    (h : ∀ u ∈ done, dEquiv u.delta d = false) :
    mergedHas (done.map fun u => (u, u)) d = false := by
  induction done with
  | nil => rfl
  | cons u rest ih =>
      simp only [List.map_cons, mergedHas, List.find?]
      rw [h u (by simp)]
      exact ih fun v hv => h v (by simp [hv])

/-- Inserting a delta that is equivalent to no existing key appends a fresh
diagonal entry at the end. -/
theorem mergedInsert_append (m : List (TDelta × TDelta)) (t : TDelta)
    (h : ∀ p ∈ m, dEquiv p.1.delta t.delta = false) :
    mergedInsert m t = m ++ [(t, t)] := by
  induction m with
  | nil => rfl
  | cons p rest ih =>
      simp only [mergedInsert]
      rw [h p (by simp)]
      simp [ih fun q hq => h q (by simp [hq])]

/-- A value found by `mergedLookup` is a stored value of the dict. -/
theorem mergedLookup_mem (m : List (TDelta × TDelta)) (d : Delta) (v : TDelta)
    (h : mergedLookup m d = some v) : ∃ p ∈ m, p.2 = v := by
  unfold mergedLookup at h
  obtain ⟨p, hp, rfl⟩ := Option.map_eq_some'.mp h
  exact ⟨p, List.mem_of_find?_eq_some hp, rfl⟩

/-! Claim C1. -/

/-- C1 (code evaluated at the claimed input): for d1 = [ChangeObject(Solid,1)]
and d2 = [RemoveObject(Solid,1)], `merge_delta_lists` does NOT produce the
behaviour the claim (and the repository's own test
tests/testmerge.py::test_merge_conflict) expects.  With the deltas as the test
builds them (originVMF unset), the run crashes with an AttributeError at
vmfdelta.py line 712 (`delta.originVMF.get_object_parent_info`); with origin
VMFs attached (as the vmfmerge.py driver does), `DeltaMergeConflict` is raised
but with partial merged list `[]` — `add_conflicted_delta` demotes the
RemoveObject delta out of the merged dict — and conflicted list
`[RemoveObject(Solid,1), ChangeObject(Solid,1)]`, not merged =
`[RemoveObject(Solid,1)]` / conflicted = `[ChangeObject(Solid,1)]`. -/
theorem c1_change_remove_conflict_divergence :
    mergeDeltaLists
        [[(Delta.ChangeObject .solid 1, none)], [(Delta.RemoveObject .solid 1 none, none)]]
      = MergeResult.error
    ∧ mergeDeltaLists
        [[(Delta.ChangeObject .solid 1, some [])],
         [(Delta.RemoveObject .solid 1 none, some [])]]
      = MergeResult.conflict []
          [Delta.RemoveObject .solid 1 none, Delta.ChangeObject .solid 1] := by
  exact ⟨rfl, rfl⟩

/-! Claim C2. -/

/-- C2 counterexample: the claim quantifies over every collection of input
delta lists, but on the collection below (the repository's own
test_merge_conflict input, whose deltas carry no originVMF) `merge_delta_lists`
neither returns normally nor raises `DeltaMergeConflict`: it crashes with an
AttributeError at vmfdelta.py line 712, even though deltas were marked
conflicted during the run. -/
theorem c2_counterexample :
    (∀ l, mergeDeltaLists
        [[(Delta.ChangeObject .solid 1, none)], [(Delta.RemoveObject .solid 1 none, none)]]
      ≠ MergeResult.ok l)
    ∧ (∀ p c, mergeDeltaLists
        [[(Delta.ChangeObject .solid 1, none)], [(Delta.RemoveObject .solid 1 none, none)]]
      ≠ MergeResult.conflict p c) := by
  have h : mergeDeltaLists
      [[(Delta.ChangeObject .solid 1, none)], [(Delta.RemoveObject .solid 1 none, none)]]
      = MergeResult.error := rfl
  exact ⟨fun l => by simp [h], fun p c => by simp [h]⟩

/-- C2 (amended): for every collection of input delta lists on which the merge
processing runs to completion without an uncaught exception (final state `s`),
`merge_delta_lists` returns the merged list normally if and only if no delta
was marked conflicted, and otherwise raises `DeltaMergeConflict` carrying the
partial merged list (the keys of the merged dict, in order) and the flattened
conflicted lists stably sorted by the fixed variant order. -/
theorem c2_return_iff_no_conflicts (deltaLists : List (List (Delta × Option Origin)))
    (s : MState) (h : mergeProcess deltaLists = some s) :
    (mergeDeltaLists deltaLists = MergeResult.ok (s.merged.map (fun p => p.1.delta))
      ↔ s.conflicted = [])
    ∧ (s.conflicted ≠ [] →
        mergeDeltaLists deltaLists
          = MergeResult.conflict (s.merged.map (fun p => p.1.delta))
              ((stableSortByKey (fun t => deltaTypeIndex t.delta)
                (s.conflicted.flatMap (fun p => p.2))).map (·.delta))) := by
  unfold mergeDeltaLists
  rw [h]
  by_cases hc : s.conflicted = []
  · simp [hc]
  · have : s.conflicted.isEmpty = false := by
      simpa [List.isEmpty_iff] using hc
    simp [this, hc]

/-- Witness for C2's amended theorem: a conflict-free run and a conflicted
run, instantiated concretely. -/
theorem c2_return_iff_no_conflicts_witness :
    (mergeDeltaLists [[(Delta.AddObject none .solid 1, none)]]
        = MergeResult.ok [Delta.AddObject none .solid 1] ↔ ([] : List (TDelta × List TDelta)) = [])
    ∧ mergeDeltaLists
        [[(Delta.AddProperty .solid 1 ["k"] (.str "a"), none)],
         [(Delta.AddProperty .solid 1 ["k"] (.str "b"), none)]]
      = MergeResult.conflict []
          [Delta.AddProperty .solid 1 ["k"] (.str "b"),
           Delta.AddProperty .solid 1 ["k"] (.str "a")] := by
  constructor
  · exact (c2_return_iff_no_conflicts [[(Delta.AddObject none .solid 1, none)]]
      ⟨[(⟨Delta.AddObject none .solid 1, none, 0⟩, ⟨Delta.AddObject none .solid 1, none, 0⟩)], []⟩
      rfl).1
  · exact (c2_return_iff_no_conflicts
      [[(Delta.AddProperty .solid 1 ["k"] (.str "a"), none)],
       [(Delta.AddProperty .solid 1 ["k"] (.str "b"), none)]]
      ⟨[], [(⟨Delta.AddProperty .solid 1 ["k"] (.str "b"), none, 1⟩,
             [⟨Delta.AddProperty .solid 1 ["k"] (.str "b"), none, 1⟩,
              ⟨Delta.AddProperty .solid 1 ["k"] (.str "a"), none, 0⟩])]⟩
      rfl).2 (by simp)

/-! Claim C6. -/

/-- C6: during merge, an `AddToVisGroup` delta whose referenced VisGroup or
referenced object has a merged `RemoveObject` delta is silently dropped — the
merge state is returned unchanged, so the delta ends up neither in the merged
dict nor in the conflicted dict and contributes no conflict; and when neither
removal is merged but the referenced object's `AddObject` delta is conflicted,
the delta is appended to the conflicted dict (and the merged dict is
unchanged; the tag-freshness hypothesis says the incoming delta is a new
object, which is always true for a delta arriving from the input stream). -/
theorem c6_addtovisgroup_drop_and_autoconflict
    (s : MState) (c : VmfClass) (id vg : Int) (o : Option Origin) (tg : Nat) :
    ((mergedHas s.merged (.RemoveObject .visgroup vg none) = true
      ∨ mergedHas s.merged (.RemoveObject c id none) = true) →
        mergeStep s ⟨.AddToVisGroup c id vg, o, tg⟩ = .ok s)
    ∧ (mergedHas s.merged (.RemoveObject .visgroup vg none) = false →
       mergedHas s.merged (.RemoveObject c id none) = false →
       confHas s.conflicted (.AddObject none c id) = true →
       (∀ p ∈ s.merged, p.2.tag ≠ tg) →
        mergeStep s ⟨.AddToVisGroup c id vg, o, tg⟩
          = .ok ⟨s.merged, confAppend s.conflicted ⟨.AddToVisGroup c id vg, o, tg⟩⟩) := by
  constructor
  · intro h
    have hor : (mergedHas s.merged (.RemoveObject .visgroup vg none)
        || mergedHas s.merged (.RemoveObject c id none)) = true := by
      rcases h with h | h <;> simp [h]
    simp [mergeStep, hor]
  · intro h1 h2 h3 hfresh
    have hc : addConflictedDelta s ⟨.AddToVisGroup c id vg, o, tg⟩
        = ⟨s.merged, confAppend s.conflicted ⟨.AddToVisGroup c id vg, o, tg⟩⟩ := by
      unfold addConflictedDelta
      cases hl : mergedLookup s.merged (Delta.AddToVisGroup c id vg) with
      | none => rfl
      | some v =>
          obtain ⟨p, hp, hpv⟩ := mergedLookup_mem _ _ _ hl
          have : (v.tag == tg) = false := by
            have := hfresh p hp
            rw [hpv] at this
            simpa using this
          simp [this]
    simp [mergeStep, h1, h2, h3, hc]

/-! Claim C10. -/

/-- On the empty state, every delta merges: each branch of `merge` finds no
processed equivalents and no conflicts, and falls through to the final
insertion. -/
theorem mergeStep_init (t : TDelta) : mergeStep MState.init t = .ok ⟨[(t, t)], []⟩ := by
  obtain ⟨d, o, tg⟩ := t
  cases d <;>
    simp [mergeStep, MState.init, iterProcessed, mergedLookup, confLookup,
      confHas, mergedHas, mergedInsert]

/-- The explicit list of bucket indices. -/
theorem range_thirteen : List.range 13 = [0, 1, 2, 3, 4, 5, 6, 7, 8, 9, 10, 11, 12] := by
  decide

/-- C10: merging two delta lists that each contain an `AddProperty` delta with
the same (class, id, key) and equal values produces no conflict, and the
merged list contains exactly one such delta (the duplicates collapse to the
first-inserted delta, which stays the key of the merged dict); the same
collapse holds for equal-valued `ChangeProperty` equivalents. -/
theorem c10_equal_value_property_collapse (c : VmfClass) (id : Int)
    (k : List String) (v : Vdf) (o1 o2 : Option Origin) :
    mergeDeltaLists [[(.AddProperty c id k v, o1)], [(.AddProperty c id k v, o2)]]
      = MergeResult.ok [Delta.AddProperty c id k v]
    ∧ mergeDeltaLists [[(.ChangeProperty c id k v, o1)], [(.ChangeProperty c id k v, o2)]]
      = MergeResult.ok [Delta.ChangeProperty c id k v] := by
  constructor
  · have h2 : mergeStep ⟨[(⟨.AddProperty c id k v, o1, 0⟩, ⟨.AddProperty c id k v, o1, 0⟩)], []⟩
        ⟨.AddProperty c id k v, o2, 1⟩
        = .ok ⟨[(⟨.AddProperty c id k v, o1, 0⟩, ⟨.AddProperty c id k v, o2, 1⟩)], []⟩ := by
      simp [mergeStep, iterProcessed, mergedLookup, confLookup, confHas,
        mergedHas, mergedInsert, dEquiv, propValue]
    have hp : mergeProcess [[(.AddProperty c id k v, o1)], [(.AddProperty c id k v, o2)]]
        = some ⟨[(⟨.AddProperty c id k v, o1, 0⟩, ⟨.AddProperty c id k v, o2, 1⟩)], []⟩ := by
      simp only [mergeProcess, bucketed, List.flatten, List.append_nil, List.enum,
        List.enumFrom, List.map, List.any_cons, List.any_nil, deltaTypeIndex,
        range_thirteen, List.filter, List.foldlM, Bool.or_self, Bool.or_false]
      simp [mergeStep_init, h2, List.foldlM, Except.bind, Bind.bind, Except.pure, Pure.pure]
    unfold mergeDeltaLists
    rw [hp]
    simp
  · have h2 : mergeStep ⟨[(⟨.ChangeProperty c id k v, o1, 0⟩, ⟨.ChangeProperty c id k v, o1, 0⟩)], []⟩
        ⟨.ChangeProperty c id k v, o2, 1⟩
        = .ok ⟨[(⟨.ChangeProperty c id k v, o1, 0⟩, ⟨.ChangeProperty c id k v, o2, 1⟩)], []⟩ := by
      simp [mergeStep, iterProcessed, mergedLookup, confLookup, confHas,
        mergedHas, mergedInsert, dEquiv, propValue]
    have hp : mergeProcess [[(.ChangeProperty c id k v, o1)], [(.ChangeProperty c id k v, o2)]]
        = some ⟨[(⟨.ChangeProperty c id k v, o1, 0⟩, ⟨.ChangeProperty c id k v, o2, 1⟩)], []⟩ := by
      simp only [mergeProcess, bucketed, List.flatten, List.append_nil, List.enum,
        List.enumFrom, List.map, List.any_cons, List.any_nil, deltaTypeIndex,
        range_thirteen, List.filter, List.foldlM, Bool.or_self, Bool.or_false]
      simp [mergeStep_init, h2, List.foldlM, Except.bind, Bind.bind, Except.pure, Pure.pure]
    unfold mergeDeltaLists
    rw [hp]
    simp

/-! Claim C5: machinery. -/

/-- Delta equivalence is symmetric (the source compares a type check and a
tuple equality, both symmetric). -/
theorem dEquiv_comm (a b : Delta) : dEquiv a b = dEquiv b a := by
  cases a <;> cases b <;>
    (first
      | rfl
      | (simp only [dEquiv]
         rw [Bool.eq_iff_iff]
         simp only [Bool.and_eq_true, beq_iff_eq]
         constructor <;> (intro h; simp_all [eq_comm])))

/-- Bucketing a list by a key that always falls inside the index list is a
permutation of the list. -/
theorem flatten_filter_perm {α : Type} (key : α → Nat) :
    ∀ (l : List α) (idxs : List Nat), idxs.Nodup → (∀ x ∈ l, key x ∈ idxs) →
      ((idxs.map fun i => l.filter (fun x => key x == i)).flatten).Perm l
  | [], idxs, _, _ => by simp
  | x :: xs, idxs, hnd, hmem => by
      obtain ⟨is₁, is₂, rfl⟩ := List.append_of_mem (hmem x (by simp))
      have hn1 : key x ∉ is₁ := by
        intro h
        exact (List.disjoint_of_nodup_append hnd) h (by simp)
      have hn2 : key x ∉ is₂ := by
        have := (List.nodup_append.mp hnd).2.1
        exact (List.nodup_cons.mp this).1
      have hmap1 : is₁.map (fun i => (x :: xs).filter (fun y => key y == i))
          = is₁.map (fun i => xs.filter (fun y => key y == i)) := by
        apply List.map_congr_left
        intro i hi
        have : (key x == i) = false := by
          simp only [beq_eq_false_iff_ne, ne_eq]
          exact fun h => hn1 (h ▸ hi)
        simp [List.filter_cons, this]
      have hmap2 : is₂.map (fun i => (x :: xs).filter (fun y => key y == i))
          = is₂.map (fun i => xs.filter (fun y => key y == i)) := by
        apply List.map_congr_left
        intro i hi
        have : (key x == i) = false := by
          simp only [beq_eq_false_iff_ne, ne_eq]
          exact fun h => hn2 (h ▸ hi)
        simp [List.filter_cons, this]
      have hmid : (x :: xs).filter (fun y => key y == key x)
          = x :: xs.filter (fun y => key y == key x) := by
        simp [List.filter_cons]
      have hrec := flatten_filter_perm key xs (is₁ ++ key x :: is₂)
        (by exact hnd)
        (fun y hy => hmem y (by simp [hy]))
      have e1 : ((is₁ ++ key x :: is₂).map fun i => (x :: xs).filter (fun y => key y == i)).flatten
          = (is₁.map fun i => xs.filter (fun y => key y == i)).flatten
            ++ x :: (xs.filter (fun y => key y == key x)
              ++ (is₂.map fun i => xs.filter (fun y => key y == i)).flatten) := by
        simp [hmap1, hmap2, hmid]
      have e2 : (is₁.map fun i => xs.filter (fun y => key y == i)).flatten
            ++ (xs.filter (fun y => key y == key x)
              ++ (is₂.map fun i => xs.filter (fun y => key y == i)).flatten)
          = ((is₁ ++ key x :: is₂).map fun i => xs.filter (fun y => key y == i)).flatten := by
        simp
      rw [e1]
      exact List.perm_middle.trans ((e2 ▸ hrec).cons x)

/-- Deltas that only ever take the fall-through insertion path when they meet
no equivalent delta: everything except `RemoveObject` and `RemoveProperty`
(whose merged presence triggers cross-variant drops and conflicts) and
`MoveVisGroup` (which has no bucket in `merge_delta_lists` at all). -/
def mergeable : Delta → Bool
  | .RemoveObject .. => false
  | .RemoveProperty .. => false
  | .MoveVisGroup .. => false
  | _ => true

/-- A mergeable delta is never equivalent to a `RemoveObject` probe. -/
theorem mergeable_not_removeObject (d : Delta) (h : mergeable d = true)
    (c : VmfClass) (i : Int) (r : Option (List (VmfClass × Int))) :
    dEquiv d (.RemoveObject c i r) = false := by
  cases d <;> simp_all [mergeable, dEquiv]

/-- A mergeable delta is never equivalent to a `RemoveProperty` probe. -/
theorem mergeable_not_removeProperty (d : Delta) (h : mergeable d = true)
    (c : VmfClass) (i : Int) (k : List String) :
    dEquiv d (.RemoveProperty c i k) = false := by
  cases d <;> simp_all [mergeable, dEquiv]

/-- A clean step: in a state whose merged dict holds only mergeable deltas
none of which is equivalent to the incoming delta, and whose conflicted dict
is empty, `merge` simply appends the incoming delta to the merged dict. -/
theorem mergeStep_clean (done : List TDelta) (t : TDelta)
    (hm : ∀ u ∈ done, mergeable u.delta = true)
    (hne : ∀ u ∈ done, dEquiv u.delta t.delta = false) :
    mergeStep ⟨done.map fun u => (u, u), []⟩ t
      = .ok ⟨(done.map fun u => (u, u)) ++ [(t, t)], []⟩ := by
  have hins : mergedInsert (done.map fun u => (u, u)) t
      = (done.map fun u => (u, u)) ++ [(t, t)] := by
    apply mergedInsert_append
    intro p hp
    obtain ⟨u, hu, rfl⟩ := List.mem_map.mp hp
    exact hne u hu
  have hrem : ∀ (c : VmfClass) (i : Int),
      mergedLookup (done.map fun u => (u, u)) (.RemoveObject c i none) = none :=
    fun c i => mergedLookup_diag_none _ _
      (fun u hu => mergeable_not_removeObject u.delta (hm u hu) c i none)
  have hremHas : ∀ (c : VmfClass) (i : Int),
      mergedHas (done.map fun u => (u, u)) (.RemoveObject c i none) = false :=
    fun c i => mergedHas_diag_false _ _
      (fun u hu => mergeable_not_removeObject u.delta (hm u hu) c i none)
  have hremP : ∀ (c : VmfClass) (i : Int) (k : List String),
      mergedLookup (done.map fun u => (u, u)) (.RemoveProperty c i k) = none :=
    fun c i k => mergedLookup_diag_none _ _
      (fun u hu => mergeable_not_removeProperty u.delta (hm u hu) c i k)
  have hself : mergedLookup (done.map fun u => (u, u)) t.delta = none :=
    mergedLookup_diag_none _ _ hne
  obtain ⟨d, o, tg⟩ := t
  cases d with
  | ChangeObject c id =>
      simp [mergeStep, iterProcessed, hrem, confLookup, hins]
  | AddProperty c id k v =>
      simp [mergeStep, iterProcessed, confHas, hself, confLookup, hins]
  | ChangeProperty c id k v =>
      simp [mergeStep, iterProcessed, confHas, hself, confLookup, hins,
        hremHas, hremP, Bool.and_eq_false_iff]
  | TieSolid sid eid =>
      simp [mergeStep, iterProcessed, confHas, hself, confLookup, hins, hrem]
  | ReparentObject p c id =>
      simp [mergeStep, hremHas, hins]
  | AddToVisGroup c id vg =>
      simp [mergeStep, hremHas, confHas, hins]
  | _ =>
      simp [mergeStep, hins]

/-- Folding `merge` over a list of pairwise non-equivalent mergeable deltas,
starting from a state that already cleanly merged `done`, appends all of them
in order and produces no conflicts. -/
theorem mergeRun_clean : ∀ (ts done : List TDelta),
    (∀ u ∈ done ++ ts, mergeable u.delta = true) →
    List.Pairwise (fun a b : TDelta => dEquiv a.delta b.delta = false) (done ++ ts) →
    ts.foldlM mergeStep (⟨done.map fun u => (u, u), []⟩ : MState)
      = Except.ok ⟨(done ++ ts).map fun u => (u, u), []⟩
  | [], done, _, _ => by simp [List.foldlM, pure, Except.pure]
  | t :: ts, done, hm, hp => by
      have hstep := mergeStep_clean done t
        (fun u hu => hm u (by simp [hu]))
        (by
          intro u hu
          have := (List.pairwise_append.mp hp).2.2 u hu t (by simp)
          exact this)
      have hrec := mergeRun_clean ts (done ++ [t])
        (by
          intro u hu
          apply hm
          simpa using hu)
        (by
          have : done ++ t :: ts = (done ++ [t]) ++ ts := by simp
          rw [← this]
          exact hp)
      simp only [List.foldlM, hstep, Except.bind, Bind.bind]
      rw [show (done.map fun u => (u, u)) ++ [(t, t)] = (done ++ [t]).map fun u => (u, u) by simp]
      rw [hrec]
      simp

/-- Stripping the tags off the tagged input recovers the input deltas. -/
theorem tagged_map_delta : ∀ (l : List (Delta × Option Origin)) (n : Nat),
    ((List.enumFrom n l).map fun p => TDelta.mk p.2.1 p.2.2 p.1).map (·.delta)
      = l.map (·.1)
  | [], _ => rfl
  | p :: ps, n => by
      simp [List.enumFrom, tagged_map_delta ps (n + 1)]

/-- Every tagged delta comes from an input pair. -/
theorem mem_tagged : ∀ (l : List (Delta × Option Origin)) (n : Nat) (t : TDelta),
    t ∈ (List.enumFrom n l).map (fun p => TDelta.mk p.2.1 p.2.2 p.1) →
      ∃ p ∈ l, t.delta = p.1
  | [], _, _, h => by simp at h
  | p :: ps, n, t, h => by
      simp only [List.enumFrom, List.map_cons, List.mem_cons] at h
      cases h with
      | inl h => exact ⟨p, by simp, by rw [h]⟩
      | inr h =>
          obtain ⟨q, hq, hd⟩ := mem_tagged ps (n + 1) t h
          exact ⟨q, by simp [hq], hd⟩

/-- Pairwise relations on the input deltas transfer to the tagged input. -/
theorem pairwise_tagged {R : Delta → Delta → Prop} :
    ∀ (l : List (Delta × Option Origin)) (n : Nat),
    List.Pairwise (fun a b => R a.1 b.1) l →
    List.Pairwise (fun a b : TDelta => R a.delta b.delta)
      ((List.enumFrom n l).map fun p => TDelta.mk p.2.1 p.2.2 p.1)
  | [], _, _ => by simp
  | p :: ps, n, h => by
      simp only [List.enumFrom, List.map_cons, List.pairwise_cons]
      refine ⟨?_, pairwise_tagged ps (n + 1) (List.Pairwise.of_cons h)⟩
      intro t ht
      obtain ⟨q, hq, hd⟩ := mem_tagged ps (n + 1) t ht
      rw [hd]
      exact (List.pairwise_cons.mp h).1 q hq

/-- Filtering tagged deltas on a property of the underlying delta commutes
with stripping the tags. -/
theorem filter_map_delta (l : List TDelta) (p : Delta → Bool) :
    (l.filter (fun t => p t.delta)).map (·.delta) = (l.map (·.delta)).filter p := by
  induction l with
  | nil => rfl
  | cons t ts ih =>
      by_cases h : p t.delta = true <;> simp [List.filter_cons, h, ih]

/-- Mergeable deltas avoid the `RemoveObject` bucket (index 2) and the
missing `MoveVisGroup` bucket (index 13). -/
theorem mergeable_idx (d : Delta) (h : mergeable d = true) :
    deltaTypeIndex d ≠ 2 ∧ deltaTypeIndex d < 13 := by
  cases d <;> simp_all [mergeable, deltaTypeIndex]

/-- C5 (amended): if no two distinct deltas of the combined input are
equivalent (in particular the equivalence-key sets of the two lists are
disjoint) and no delta is a `RemoveObject`, `RemoveProperty` or
`MoveVisGroup`, then `merge_delta_lists([d1, d2])` raises no conflict and
returns exactly the concatenation of the two lists reordered by the fixed
variant ordering. -/
theorem c5_disjoint_clean_merge (d1 d2 : List (Delta × Option Origin))
    (hm : ∀ p ∈ d1 ++ d2, mergeable p.1 = true)
    (hp : List.Pairwise (fun a b => dEquiv a.1 b.1 = false) (d1 ++ d2)) :
    mergeDeltaLists [d1, d2] = MergeResult.ok (variantOrder ((d1 ++ d2).map (·.1))) := by
  set tagged : List TDelta :=
    ((d1 ++ d2).enum.map fun p => TDelta.mk p.2.1 p.2.2 p.1) with htagged
  have htag_mem : ∀ t ∈ tagged, mergeable t.delta = true := by
    intro t ht
    obtain ⟨p, hq, hd⟩ := mem_tagged (d1 ++ d2) 0 t ht
    rw [hd]
    exact hm p hq
  have htag_pairwise :
      List.Pairwise (fun a b : TDelta => dEquiv a.delta b.delta = false) tagged := by
    have h := @pairwise_tagged (fun a b => dEquiv a b = false) (d1 ++ d2) 0 hp
    rw [htagged]
    exact h
  have hany : tagged.any (fun t => deltaTypeIndex t.delta == 13) = false := by
    rw [List.any_eq_false]
    intro t ht
    have := (mergeable_idx t.delta (htag_mem t ht)).2
    simp
    omega
  set P : List TDelta :=
    ((List.range 13).map fun i => tagged.filter (fun t => deltaTypeIndex t.delta == i)).flatten
    with hP
  have hbuckets : bucketed tagged = P := by
    rw [bucketed, hP]
    congr 1
    apply List.map_congr_left
    intro i _
    by_cases h2 : i = 2
    · subst h2
      have hnil : tagged.filter (fun t => deltaTypeIndex t.delta == 2) = [] := by
        rw [List.filter_eq_nil_iff]
        intro t ht
        have := (mergeable_idx t.delta (htag_mem t ht)).1
        simpa using this
      simp [hnil]
    · simp [h2]
  have hperm : P.Perm tagged :=
    flatten_filter_perm (fun t => deltaTypeIndex t.delta) tagged (List.range 13)
      (List.nodup_range _)
      (fun t ht => List.mem_range.mpr (mergeable_idx t.delta (htag_mem t ht)).2)
  have hPmem : ∀ t ∈ P, mergeable t.delta = true :=
    fun t ht => htag_mem t (hperm.subset ht)
  have hPpair : List.Pairwise (fun a b : TDelta => dEquiv a.delta b.delta = false) P := by
    refine (List.Perm.pairwise_iff ?_ hperm).mpr htag_pairwise
    intro a b h
    rw [dEquiv_comm]
    exact h
  have hfold : P.foldlM mergeStep MState.init = Except.ok ⟨P.map fun u => (u, u), []⟩ := by
    have := mergeRun_clean P [] (by simpa using hPmem) (by simpa using hPpair)
    simpa [MState.init] using this
  have hproc : mergeProcess [d1, d2] = some ⟨P.map fun u => (u, u), []⟩ := by
    unfold mergeProcess
    rw [show ([d1, d2] : List (List (Delta × Option Origin))).flatten = d1 ++ d2 by simp]
    rw [← htagged]
    show (if (tagged.any fun t => deltaTypeIndex t.delta == 13) = true then none
      else match List.foldlM mergeStep MState.init (bucketed tagged) with
        | Except.ok s => some s
        | Except.error _ => none) = some ⟨P.map fun u => (u, u), []⟩
    rw [hany]
    simp only [Bool.false_eq_true, if_false]
    rw [hbuckets, hfold]
  have hstrip : tagged.map (·.delta) = (d1 ++ d2).map (·.1) := by
    rw [htagged]
    simpa [List.enum] using tagged_map_delta (d1 ++ d2) 0
  have hmapP : P.map (·.delta) = variantOrder ((d1 ++ d2).map (·.1)) := by
    rw [hP, variantOrder, List.map_flatten, List.map_map]
    congr 1
    apply List.map_congr_left
    intro i _
    show (tagged.filter (fun t => deltaTypeIndex t.delta == i)).map (·.delta)
      = ((d1 ++ d2).map (·.1)).filter (fun d => deltaTypeIndex d == i)
    rw [filter_map_delta tagged (fun d => deltaTypeIndex d == i), hstrip]
  unfold mergeDeltaLists
  rw [hproc]
  simp only [List.isEmpty_nil, if_true]
  rw [← hmapP]
  simp



/-- C5 counterexample: the delta lists `[RemoveObject(Solid,1)]` and
`[ReparentObject(None,Solid,1)]` have disjoint equivalence-key sets (deltas of
different types never compare equal), yet `merge_delta_lists` silently drops
the ReparentObject delta, so the result is NOT the concatenation of the two
lists reordered by variant — the claim fails as stated. -/
theorem c5_counterexample :
    (∀ a ∈ [Delta.RemoveObject .solid 1 none],
      ∀ b ∈ [Delta.ReparentObject none .solid 1], dEquiv a b = false)
    ∧ mergeDeltaLists
        [[(Delta.RemoveObject .solid 1 none, none)],
         [(Delta.ReparentObject none .solid 1, none)]]
      = MergeResult.ok [Delta.RemoveObject .solid 1 none]
    ∧ MergeResult.ok [Delta.RemoveObject .solid 1 none]
      ≠ MergeResult.ok (variantOrder
          [Delta.RemoveObject .solid 1 none, Delta.ReparentObject none .solid 1]) := by
  refine ⟨by decide, rfl, by decide⟩

/-- Witness for C5's amended theorem at a concrete input. -/
theorem c5_disjoint_clean_merge_witness :
    (∀ p ∈ ([(Delta.AddObject none .solid 1, (none : Option Origin))]
        ++ [(Delta.ChangeObject .solid 2, (none : Option Origin))]), mergeable p.1 = true)
    ∧ mergeDeltaLists
        [[(Delta.AddObject none .solid 1, none)], [(Delta.ChangeObject .solid 2, none)]]
      = MergeResult.ok (variantOrder
          [Delta.AddObject none .solid 1, Delta.ChangeObject .solid 2]) :=
  ⟨by decide,
   c5_disjoint_clean_merge
     [(Delta.AddObject none .solid 1, none)] [(Delta.ChangeObject .solid 2, none)]
     (by decide) (by decide)⟩

/-- Witness for C6 at concrete inputs: a merged RemoveObject of VisGroup 5
silently drops AddToVisGroup(Solid,1,5); a conflicted AddObject(Solid,1) turns
AddToVisGroup(Solid,1,7) conflicted. -/
theorem c6_addtovisgroup_witness :
    mergeStep
        ⟨[(⟨Delta.RemoveObject .visgroup 5 none, none, 0⟩,
           ⟨Delta.RemoveObject .visgroup 5 none, none, 0⟩)], []⟩
        ⟨Delta.AddToVisGroup .solid 1 5, none, 1⟩
      = Except.ok
        ⟨[(⟨Delta.RemoveObject .visgroup 5 none, none, 0⟩,
           ⟨Delta.RemoveObject .visgroup 5 none, none, 0⟩)], []⟩
    ∧ mergeStep
        ⟨[], [(⟨Delta.AddObject none .solid 1, none, 0⟩,
               [⟨Delta.AddObject none .solid 1, none, 0⟩])]⟩
        ⟨Delta.AddToVisGroup .solid 1 7, none, 1⟩
      = Except.ok
        ⟨[], [(⟨Delta.AddObject none .solid 1, none, 0⟩,
               [⟨Delta.AddObject none .solid 1, none, 0⟩]),
              (⟨Delta.AddToVisGroup .solid 1 7, none, 1⟩,
               [⟨Delta.AddToVisGroup .solid 1 7, none, 1⟩])]⟩ := by
  constructor
  · exact (c6_addtovisgroup_drop_and_autoconflict _ .solid 1 5 none 1).1
      (Or.inl (by decide))
  · exact (c6_addtovisgroup_drop_and_autoconflict _ .solid 1 7 none 1).2
      (by decide) (by decide) (by decide) (by decide)

/-! The map model of vmf.py. -/

/-- Uncaught Python exceptions of the map model: `KeyError`, `ValueError`,
`TypeError`, `AssertionError`, and `VMF.ObjectDoesNotExist`. -/
inductive VErr where
  | keyError
  | valueError
  | typeError
  | assertionError
  | attributeError
  | objectDoesNotExist (vmfClass : VmfClass) (id : Int)
deriving DecidableEq, Repr

/-- Dictionary lookup in an insertion-ordered association list. -/
def alookup {κ β : Type} [BEq κ] (l : List (κ × β)) (k : κ) : Option β :=
  (l.find? (fun p => p.1 == k)).map (·.2)

/-- Dictionary assignment `d[k] = v`: replace the value at an existing key
(keeping the key's position), else append a fresh entry at the end. -/
def aset {κ β : Type} [BEq κ] (l : List (κ × β)) (k : κ) (v : β) : List (κ × β) :=
  match l with
  | [] => [(k, v)]
  | (k', v') :: rest => if k' == k then (k', v) :: rest else (k', v') :: aset rest k v

/-- Dictionary deletion `del d[k]` (the callers check presence first). -/
def adel {κ β : Type} [BEq κ] (l : List (κ × β)) (k : κ) : List (κ × β) :=
  match l with
  | [] => []
  | (k', v') :: rest => if k' == k then rest else (k', v') :: adel rest k

/-- In-memory VMF (vmf.py class `VMF`): the raw tree (`vmfData`, in which
class objects are represented by `Vdf.ref` references into the per-class
tables, mirroring the aliasing of the Python dicts), the world object
(`self.world` is a direct pointer to the world dict), the per-class object
tables, the solid-to-entity tie table, the parent-pointer table and the
per-class last-ID counters. -/
structure VmfState where
  vmfData : Obj
  revision : Int
  world : Obj
  solidsById : List (Int × Obj)
  sidesById : List (Int × Obj)
  groupsById : List (Int × Obj)
  entitiesById : List (Int × Obj)
  visGroupsById : List (Int × Obj)
  entityIdForSolidId : List (Int × Int)
  parentInfoForObject : List ((VmfClass × Int) × (VmfClass × Int))
  lastIdForVmfClass : List (VmfClass × Int)
deriving DecidableEq, Repr

/-- Decimal digit value of a character. -/
def charDigit (c : Char) : Option Nat :=
  if c.isDigit then some (c.toNat - '0'.toNat) else none

/-- Parse a nonempty run of decimal digits. -/
def parseDigits : List Char → Option Nat
  | [] => none
  | cs => cs.foldl
      (fun acc c =>
        match acc, charDigit c with
        | some n, some d => some (n * 10 + d)
        | _, _ => none)
      (some 0)

/-- Python `int(str)` on the strings that occur in VMF fields: an optional
sign followed by decimal digits (Python additionally strips surrounding
whitespace, which VMF id fields never carry). -/
def parsePyInt (s : String) : Option Int :=
  match s.data with
  | '-' :: rest => (parseDigits rest).map (fun n => -(n : Int))
  | '+' :: rest => (parseDigits rest).map (fun n => (n : Int))
  | cs => (parseDigits cs).map (fun n => (n : Int))

/-- Python `int()` conversion of a VDF value: accepts integers and numeric
strings, raises ValueError/TypeError otherwise. -/
def vdfToInt : Vdf → Except VErr Int
  | .int n => .ok n
  | .str s =>
      match parsePyInt s with
      | some n => .ok n
      | none => .error .valueError
  | _ => .error .typeError

/-- `get_id` (vmf.py lines 737-739): `int(vmfObject[idPropName])`. -/
def getIdProp (o : Obj) (idPropName : String) : Except VErr Int :=
  match alookup o idPropName with
  | some v => vdfToInt v
  | none => .error .keyError

/-- `VMF.get_object` (vmf.py lines 322-330).  The `world` branch is
`lambda id: self.world`: it returns the world object whatever the id. -/
def getObject (st : VmfState) (c : VmfClass) (id : Int) : Except VErr Obj :=
  match c with
  | .world => .ok st.world
  | .solid =>
      match alookup st.solidsById id with
      | some o => .ok o
      | none => .error (.objectDoesNotExist .solid id)
  | .side =>
      match alookup st.sidesById id with
      | some o => .ok o
      | none => .error (.objectDoesNotExist .side id)
  | .group =>
      match alookup st.groupsById id with
      | some o => .ok o
      | none => .error (.objectDoesNotExist .group id)
  | .entity =>
      match alookup st.entitiesById id with
      | some o => .ok o
      | none => .error (.objectDoesNotExist .entity id)
  | .visgroup =>
      match alookup st.visGroupsById id with
      | some o => .ok o
      | none => .error (.objectDoesNotExist .visgroup id)

/-- `VMF.has_object` (vmf.py lines 332-340): for the world it tests the id
against `get_id(self.world)`; otherwise membership in the class table. -/
def hasObject (st : VmfState) (c : VmfClass) (id : Int) : Except VErr Bool :=
  match c with
  | .world => do
      let wid ← getIdProp st.world "id"
      .ok (id == wid)
  | .solid => .ok (alookup st.solidsById id).isSome
  | .side => .ok (alookup st.sidesById id).isSome
  | .group => .ok (alookup st.groupsById id).isSome
  | .entity => .ok (alookup st.entitiesById id).isSome
  | .visgroup => .ok (alookup st.visGroupsById id).isSome

/-- Write the given object back to the store `get_object` read it from (the
Python code mutates the shared dict in place; here the single owning store is
updated). -/
def updateObject (st : VmfState) (c : VmfClass) (id : Int) (o : Obj) : VmfState :=
  match c with
  | .world => { st with world := o }
  | .solid => { st with solidsById := aset st.solidsById id o }
  | .side => { st with sidesById := aset st.sidesById id o }
  | .group => { st with groupsById := aset st.groupsById id o }
  | .entity => { st with entitiesById := aset st.entitiesById id o }
  | .visgroup => { st with visGroupsById := aset st.visGroupsById id o }

/-- `get_object_parent_info` (vmf.py lines 434-442). -/
def getObjectParentInfo (st : VmfState) (c : VmfClass) (id : Int) :
    Option (VmfClass × Int) :=
  alookup st.parentInfoForObject (c, id)

/-- `add_object_entry` (vmf.py lines 751-759): append to a list-valued entry;
on KeyError assign; on AttributeError (scalar entry) wrap the pair in a
list. -/
def addObjectEntry (o : Obj) (k : String) (v : Vdf) : Obj :=
  match alookup o k with
  | none => o ++ [(k, v)]
  | some (.list l) => aset o k (.list (l ++ [v]))
  | some old => aset o k (.list [old, v])

/-- `remove_object_entry` (vmf.py lines 762-779): `list.remove` of the first
equal element (ValueError if absent), collapsing a resulting singleton list
to its element; a scalar entry (dict or string — here also `ref`, which
stands for a dict) is deleted outright after the isinstance assert, whatever
its value. -/
def removeObjectEntry (o : Obj) (k : String) (v : Vdf) : Except VErr Obj :=
  match alookup o k with
  | none => .error .keyError
  | some (.list l) =>
      if v ∈ l then
        match l.erase v with
        | [x] => .ok (aset o k x)
        | l' => .ok (aset o k (.list l'))
      else .error .valueError
  | some (.obj _) => .ok (adel o k)
  | some (.str _) => .ok (adel o k)
  | some (.ref _ _) => .ok (adel o k)
  | some (.int _) => .error .assertionError

/-- `object_has_property` (vmf.py lines 782-795): walk the path, asserting at
each step that the current value is a dict. -/
def objectHasProperty (v : Vdf) : List String → Except VErr Bool
  | [] => .ok true
  | k :: ks =>
      match v with
      | .obj entries =>
          match alookup entries k with
          | none => .ok false
          | some v' => objectHasProperty v' ks
      | _ => .error .assertionError

/-- `get_object_property` (vmf.py lines 798-811): walk the path, raising
KeyError on a missing key or a non-dict intermediate. -/
def getObjectProperty (v : Vdf) : List String → Except VErr Vdf
  | [] => .ok v
  | k :: ks =>
      match v with
      | .obj entries =>
          match alookup entries k with
          | some v' => getObjectProperty v' ks
          | none => .error .keyError
      | _ => .error .keyError

/-- `set_object_property` (vmf.py lines 814-832): walk the path creating
missing intermediate OrderedDicts, raising KeyError on a non-dict
intermediate, and assign the final key. -/
def setObjectProperty (o : Obj) : List String → Vdf → Except VErr Obj
  | [], _ => .error .keyError
  | [k], value => .ok (aset o k value)
  | k :: ks, value =>
      match alookup o k with
      | none => do
          let sub ← setObjectProperty [] ks value
          .ok (aset o k (.obj sub))
      | some (.obj sub) => do
          let sub' ← setObjectProperty sub ks value
          .ok (aset o k (.obj sub'))
      | some _ => .error .keyError

/-- `delete_object_property` (vmf.py lines 835-869): delete the final key
(KeyError if missing), then walk back up collapsing intermediates that have
become empty. -/
def deleteObjectProperty (o : Obj) : List String → Except VErr Obj
  | [] => .error .keyError
  | [k] =>
      match alookup o k with
      | some _ => .ok (adel o k)
      | none => .error .keyError
  | k :: ks =>
      match alookup o k with
      | some (.obj sub) => do
          let sub' ← deleteObjectProperty sub ks
          .ok (if sub'.isEmpty then adel o k else aset o k (.obj sub'))
      | some _ => .error .keyError
      | none => .error .keyError

/-- The nested path of an object's VisGroup membership list
(`VMF.VISGROUP_PROPERTY_PATH`, the delimiter-joined `editor`/`visgroupid`). -/
def visgroupPath : List String := ["editor", "visgroupid"]

/-- The nested path of an object's group id (`VMF.GROUP_PROPERTY_PATH`). -/
def groupPath : List String := ["editor", "groupid"]

/-- `get_object_visgroups` (vmf.py lines 872-887): read `editor.visgroupid`
(empty set on KeyError), wrap a scalar into a list, and convert every entry
to int.  The Python function returns a set; here the set is canonicalised as
the deduplicated list in encounter order (every use of the result —
membership tests, adds, removes and the sorted-string serialisation — is
insensitive to the ordering of the set). -/
def getObjectVisgroups (o : Obj) : Except VErr (List Int) :=
  match getObjectProperty (.obj o) visgroupPath with
  | .error _ => .ok []
  | .ok v => do
      let vs := match v with
        | .list l => l
        | other => [other]
      let ints ← vs.mapM vdfToInt
      .ok (ints.foldl (fun acc i => if i ∈ acc then acc else acc ++ [i]) [])

/-- Code-point-lexicographic comparison of strings (Python `<` on str). -/
def strLt : List Char → List Char → Bool
  | [], [] => false
  | [], _ :: _ => true
  | _ :: _, [] => false
  | c :: cs, d :: ds => if c < d then true else if d < c then false else strLt cs ds

/-- Stable insertion into a lexicographically sorted list of strings. -/
def strInsert (x : String) : List String → List String
  | [] => [x]
  | y :: ys => if strLt x.data y.data then x :: y :: ys else y :: strInsert x ys

/-- Python `sorted` on a list of strings: ascending code-point-lexicographic
order. -/
def sortStrings (l : List String) : List String :=
  l.foldr strInsert []

/-- `set_object_visgroups` (vmf.py lines 890-894): store
`sorted(str(id) for id in visGroups)` under `editor.visgroupid`. -/
def setObjectVisgroups (o : Obj) (visGroups : List Int) : Except VErr Obj :=
  setObjectProperty o visgroupPath
    (.list ((sortStrings (visGroups.map (fun i => toString i))).map .str))

/-- `add_object_to_data` (vmf.py lines 444-480). -/
def addObjectToData (st : VmfState) (c : VmfClass) (id : Int)
    (parentInfo : Option (VmfClass × Int)) : Except VErr VmfState := do
  let _ ← getObject st c id
  match parentInfo with
  | none =>
      if c = .visgroup then
        match alookup st.vmfData "visgroups" with
        | none => .error .keyError
        | some (.obj vg) =>
            let vg' := addObjectEntry vg (className c) (.ref c id)
            .ok { st with vmfData := aset st.vmfData "visgroups" (.obj vg') }
        | some _ => .error .assertionError
      else
        .ok { st with vmfData := addObjectEntry st.vmfData (className c) (.ref c id) }
  | some (pc, pid) => do
      let parentObj ← getObject st pc pid
      let st := { st with parentInfoForObject := aset st.parentInfoForObject (c, id) (pc, pid) }
      .ok (updateObject st pc pid (addObjectEntry parentObj (className c) (.ref c id)))

/-- `remove_object_from_data` (vmf.py lines 482-511). -/
def removeObjectFromData (st : VmfState) (c : VmfClass) (id : Int) :
    Except VErr VmfState := do
  let _ ← getObject st c id
  match getObjectParentInfo st c id with
  | none =>
      if c = .visgroup then
        match alookup st.vmfData "visgroups" with
        | none => .error .keyError
        | some (.obj vg) => do
            let vg' ← removeObjectEntry vg (className c) (.ref c id)
            .ok { st with vmfData := aset st.vmfData "visgroups" (.obj vg') }
        | some _ => .error .assertionError
      else do
        let root' ← removeObjectEntry st.vmfData (className c) (.ref c id)
        .ok { st with vmfData := root' }
  | some (pc, pid) => do
      let parentObj ← getObject st pc pid
      let st := { st with parentInfoForObject := adel st.parentInfoForObject (c, id) }
      let parent' ← removeObjectEntry parentObj (className c) (.ref c id)
      .ok (updateObject st pc pid parent')

/-- The per-class table dispatch dict of `apply_deltas` (vmf.py lines
537-543 and 565-571): it has no entry for the world class, so a world delta
raises KeyError. -/
def classTable (st : VmfState) : VmfClass → Except VErr (List (Int × Obj))
  | .world => .error .keyError
  | .solid => .ok st.solidsById
  | .side => .ok st.sidesById
  | .group => .ok st.groupsById
  | .entity => .ok st.entitiesById
  | .visgroup => .ok st.visGroupsById

/-- Replace one per-class table (the world branch is unreachable: every
caller goes through `classTable` first). -/
def setClassTable (st : VmfState) : VmfClass → List (Int × Obj) → VmfState
  | .world, _ => st
  | .solid, t => { st with solidsById := t }
  | .side, t => { st with sidesById := t }
  | .group, t => { st with groupsById := t }
  | .entity, t => { st with entitiesById := t }
  | .visgroup, t => { st with visGroupsById := t }

/-- One iteration of the `apply_deltas` loop (vmf.py lines 524-669),
threading the `removedObjectsInfoSet`.  Delta types without a branch in the
source (`ChangeObject`, `ReparentObject`) are no-ops. -/
def applyOne (st : VmfState) (removed : List (VmfClass × Int)) (delta : Delta) :
    Except VErr (VmfState × List (VmfClass × Int)) :=
  match delta with
  | .AddObject parent c id => do
      match alookup st.lastIdForVmfClass c with
      | none => .error .keyError
      | some lastId => do
          let st := if id > lastId
            then { st with lastIdForVmfClass := aset st.lastIdForVmfClass c id }
            else st
          let newObj : Obj :=
            if c = .visgroup then [("visgroupid", .int id)] else [("id", .int id)]
          let tbl ← classTable st c
          let st := setClassTable st c (aset tbl id newObj)
          let st ← addObjectToData st c id parent
          .ok (st, removed)
  | .RemoveObject c id _ => do
      let parentInfo := getObjectParentInfo st c id
      let st ← match parentInfo with
        | some pi => if pi ∈ removed then .ok st else removeObjectFromData st c id
        | none => removeObjectFromData st c id
      let tbl ← classTable st c
      match alookup tbl id with
      | none => .error .keyError
      | some _ =>
          let st := setClassTable st c (adel tbl id)
          .ok (st, removed ++ [(c, id)])
  | .AddProperty c id k v => do
      let o ← getObject st c id
      let o' ← setObjectProperty o k v
      .ok (updateObject st c id o', removed)
  | .ChangeProperty c id k v => do
      let o ← getObject st c id
      let o' ← setObjectProperty o k v
      .ok (updateObject st c id o', removed)
  | .RemoveProperty c id k => do
      let o ← getObject st c id
      let o' ← deleteObjectProperty o k
      .ok (updateObject st c id o', removed)
  | .AddOutput entityId output value _ => do
      let ent ← getObject st .entity entityId
      let ent := if (alookup ent "connections").isNone
        then ent ++ [("connections", .obj [])] else ent
      match alookup ent "connections" with
      | some (.obj conns) =>
          let conns' := addObjectEntry conns output (.str value)
          .ok (updateObject st .entity entityId (aset ent "connections" (.obj conns')), removed)
      | some _ => .error .typeError
      | none => .error .keyError
  | .RemoveOutput entityId output value _ => do
      let ent ← getObject st .entity entityId
      if (alookup ent "connections").isNone then .error .assertionError
      else
        match alookup ent "connections" with
        | some (.obj conns) => do
            let conns' ← removeObjectEntry conns output (.str value)
            .ok (updateObject st .entity entityId (aset ent "connections" (.obj conns')), removed)
        | some _ => .error .typeError
        | none => .error .keyError
  | .TieSolid solidId entityId => do
      let st := { st with entityIdForSolidId := aset st.entityIdForSolidId solidId entityId }
      let st ← removeObjectFromData st .solid solidId
      let st ← addObjectToData st .solid solidId (some (.entity, entityId))
      .ok (st, removed)
  | .UntieSolid solidId => do
      match alookup st.entityIdForSolidId solidId with
      | none => .error .keyError
      | some _ => do
          let st := { st with entityIdForSolidId := adel st.entityIdForSolidId solidId }
          let st ← removeObjectFromData st .solid solidId
          let wid ← getIdProp st.world "id"
          let st ← addObjectToData st .solid solidId (some (.world, wid))
          .ok (st, removed)
  | .MoveVisGroup visGroupId parentId => do
      let st ← removeObjectFromData st .visgroup visGroupId
      let newParentInfo := parentId.map (fun pid => (VmfClass.visgroup, pid))
      let st ← addObjectToData st .visgroup visGroupId newParentInfo
      .ok (st, removed)
  | .AddToVisGroup c id visGroupId => do
      let o ← getObject st c id
      let s ← getObjectVisgroups o
      let s' := if visGroupId ∈ s then s else s ++ [visGroupId]
      let o' ← setObjectVisgroups o s'
      .ok (updateObject st c id o', removed)
  | .RemoveFromVisGroup c id visGroupId => do
      let o ← getObject st c id
      let s ← getObjectVisgroups o
      if visGroupId ∈ s then do
        let o' ← setObjectVisgroups o (s.filter (fun i => i != visGroupId))
        .ok (updateObject st c id o', removed)
      else .error .keyError
  | _ => .ok (st, removed)

/-- `increment_revision` (vmf.py lines 674-678). -/
def incrementRevision (st : VmfState) : Except VErr VmfState := do
  let rev := st.revision + 1
  match alookup st.vmfData "versioninfo" with
  | some (.obj vi) =>
      let vmfData := aset st.vmfData "versioninfo" (.obj (aset vi "mapversion" (.int rev)))
      let world := aset st.world "mapversion" (.int rev)
      .ok { st with revision := rev, vmfData := vmfData, world := world }
  | some _ => .error .typeError
  | none => .error .keyError

/-- `apply_deltas` (vmf.py lines 513-672): fold the per-delta loop with an
initially empty removed-objects set, then (by default) increment the
revision. -/
def applyDeltas (st : VmfState) (deltas : List Delta) (incrementRev : Bool) :
    Except VErr VmfState := do
  let res ← deltas.foldlM (fun (p : VmfState × List (VmfClass × Int)) d => applyOne p.1 p.2 d)
    (st, [])
  if incrementRev then incrementRevision res.1 else .ok res.1

/-! Dictionary lemmas. -/

/-- Looking up the key just assigned yields the assigned value. -/
theorem alookup_aset_self {κ β : Type} [BEq κ] [LawfulBEq κ]
    (l : List (κ × β)) (k : κ) (v : β) : alookup (aset l k v) k = some v := by
  induction l with
  | nil => simp [aset, alookup, List.find?]
  | cons p rest ih =>
      by_cases h : p.1 == k
      · simp [aset, alookup, List.find?, h]
      · obtain ⟨k', v'⟩ := p
        simp only [aset]
        rw [if_neg (by simpa using h)]
        simpa [alookup, List.find?, h] using ih

/-- Assignment leaves other keys untouched. -/
theorem alookup_aset_ne {κ β : Type} [BEq κ] [LawfulBEq κ]
    (l : List (κ × β)) (k k2 : κ) (v : β) (h : k2 ≠ k) :
    alookup (aset l k v) k2 = alookup l k2 := by
  induction l with
  | nil =>
      have hf : (k == k2) = false := beq_eq_false_iff_ne.mpr (fun he => h he.symm)
      simp [aset, alookup, List.find?, hf]
  | cons p rest ih =>
      obtain ⟨k', v'⟩ := p
      by_cases hk : k' == k
      · have hne2 : (k' == k2) = false := by
          have : k' = k := eq_of_beq hk
          subst this
          simpa using fun he => h (eq_of_beq he).symm
        simp [aset, hk, alookup, List.find?, hne2]
      · simp only [aset]
        rw [if_neg (by simpa using hk)]
        by_cases hk2 : k' == k2
        · simp [alookup, List.find?, hk2]
        · simpa [alookup, List.find?, hk2] using ih

/-- The children stored under a key of a VMF object, flattening the
singleton-or-list duality of the raw tree representation. -/
def childValues (o : Obj) (k : String) : List Vdf :=
  match alookup o k with
  | none => []
  | some (.list l) => l
  | some v => [v]

/-- Appending a fresh binding leaves other keys untouched. -/
theorem alookup_append_ne {κ β : Type} [BEq κ] [LawfulBEq κ]
    (l : List (κ × β)) (k k2 : κ) (v : β) (h : k2 ≠ k) :
    alookup (l ++ [(k, v)]) k2 = alookup l k2 := by
  induction l with
  | nil =>
      have hf : (k == k2) = false := beq_eq_false_iff_ne.mpr (fun he => h he.symm)
      simp [alookup, List.find?, hf]
  | cons p rest ih =>
      by_cases hk2 : p.1 == k2
      · simp [alookup, List.find?, hk2]
      · simpa [alookup, List.find?, hk2] using ih

/-- Appending a binding for a previously missing key makes it found. -/
theorem alookup_append_self {κ β : Type} [BEq κ] [LawfulBEq κ]
    (l : List (κ × β)) (k : κ) (v : β) (h : alookup l k = none) :
    alookup (l ++ [(k, v)]) k = some v := by
  induction l with
  | nil => simp [alookup, List.find?]
  | cons p rest ih =>
      by_cases hk : p.1 == k
      · simp [alookup, List.find?, hk] at h
      · simp only [alookup, List.find?, List.cons_append, hk] at h ⊢
        exact ih h

/-- `add_object_entry` with a (non-list) reference value appends it to the
children under the key. -/
theorem childValues_addObjectEntry (o : Obj) (k : String) (c : VmfClass) (i : Int) :
    childValues (addObjectEntry o k (.ref c i)) k = childValues o k ++ [.ref c i] := by
  unfold childValues addObjectEntry
  cases h : alookup o k with
  | none => simp [h, alookup_append_self o k _ h]
  | some w =>
      cases w <;> simp [h, alookup_aset_self]

/-- `add_object_entry` leaves other keys untouched. -/
theorem alookup_addObjectEntry_ne (o : Obj) (k k2 : String) (v : Vdf) (h : k2 ≠ k) :
    alookup (addObjectEntry o k v) k2 = alookup o k2 := by
  unfold addObjectEntry
  cases hk : alookup o k with
  | none => exact alookup_append_ne o k k2 v h
  | some w => cases w <;> exact alookup_aset_ne o k k2 _ h

/-! Claim C9. -/

/-- C9: for every map state and every id, `get_object(World, id)` returns the
map's world object — the id argument is ignored and `ObjectDoesNotExist` is
never raised — while `has_object(World, id)` is true exactly for the world's
actual id (the integer value of the world object's `id` field). -/
theorem c9_world_get_ignores_id (st : VmfState) (wid : Int)
    (h : getIdProp st.world "id" = .ok wid) (id id2 : Int) :
    getObject st .world id = .ok st.world
    ∧ getObject st .world id = getObject st .world id2
    ∧ (hasObject st .world id = .ok true ↔ id = wid) := by
  refine ⟨rfl, rfl, ?_⟩
  have hh : hasObject st .world id = .ok (id == wid) := by
    simp [hasObject, h, Except.bind, Bind.bind]
  rw [hh]
  constructor
  · intro he
    exact eq_of_beq (Except.ok.inj he)
  · intro he
    subst he
    simp

/-- Witness for C9: a tiny map whose world has id 1; `get_object(World, 5)`
still returns the world object, while `has_object(World, 5)` is false. -/
theorem c9_world_get_ignores_id_witness :
    getObject
        ⟨[("versioninfo", .obj [("mapversion", .str "1")]), ("world", .ref .world 1)],
         1, [("id", .str "1")], [], [], [], [], [], [], [], [(.world, 1)]⟩
        .world 5
      = .ok [("id", .str "1")]
    ∧ ¬ (5 : Int) = 1 := by
  constructor
  · exact (c9_world_get_ignores_id
      ⟨[("versioninfo", .obj [("mapversion", .str "1")]), ("world", .ref .world 1)],
       1, [("id", .str "1")], [], [], [], [], [], [], [], [(.world, 1)]⟩
      1 (by rfl) 5 7).1
  · decide

/-! Claim C8. -/

/-- Setting `editor.visgroupid` succeeds whenever the object's `editor` entry
is absent or a sub-object, and the stored value is then readable at the same
path. -/
theorem setVisgroupProperty_roundtrip (o : Obj) (v : Vdf)
    (hed : alookup o "editor" = none ∨ ∃ e, alookup o "editor" = some (.obj e)) :
    ∃ o', setObjectProperty o visgroupPath v = .ok o'
      ∧ getObjectProperty (.obj o') visgroupPath = .ok v := by
  cases hed with
  | inl h =>
      refine ⟨aset o "editor" (.obj [("visgroupid", v)]), ?_, ?_⟩
      · simp [setObjectProperty, visgroupPath, h, Except.bind, Bind.bind, aset, pure,
          Except.pure]
      · have h1 : alookup (aset o "editor" (Vdf.obj [("visgroupid", v)])) "editor"
            = some (.obj [("visgroupid", v)]) := alookup_aset_self o _ _
        simp only [getObjectProperty, visgroupPath, h1]
        simp [alookup, List.find?]
  | inr h =>
      obtain ⟨e, h⟩ := h
      refine ⟨aset o "editor" (.obj (aset e "visgroupid" v)), ?_, ?_⟩
      · simp [setObjectProperty, visgroupPath, h, Except.bind, Bind.bind, pure, Except.pure]
      · have h1 : alookup (aset o "editor" (Vdf.obj (aset e "visgroupid" v))) "editor"
            = some (.obj (aset e "visgroupid" v)) := alookup_aset_self o _ _
        simp only [getObjectProperty, visgroupPath, h1]
        simp [alookup_aset_self]

/-- C8: after applying an `AddToVisGroup` (resp. `RemoveFromVisGroup`, for a
present member) delta, the object's stored `editor.visgroupid` value is the
list of decimal-string IDs of the resulting membership set, sorted (as
strings, i.e. in code-point-lexicographic order — `sorted(str(id) for id in
visGroups)` in the source); the final conjunct pins this down for a
membership set with differing digit counts: {2, 10} is stored as
["10", "2"]. -/
theorem c8_visgroup_membership_sorted (st : VmfState) (removed : List (VmfClass × Int))
    (c : VmfClass) (id visGroupId : Int) (o : Obj) (s : List Int)
    (hobj : getObject st c id = .ok o)
    (hvis : getObjectVisgroups o = .ok s)
    (hed : alookup o "editor" = none ∨ ∃ e, alookup o "editor" = some (.obj e)) :
    (∃ o', applyOne st removed (.AddToVisGroup c id visGroupId)
        = .ok (updateObject st c id o', removed)
      ∧ getObjectProperty (.obj o') visgroupPath
          = .ok (.list ((sortStrings
              (((if visGroupId ∈ s then s else s ++ [visGroupId]).map
                (fun i => toString i)))).map .str)))
    ∧ (visGroupId ∈ s →
      ∃ o', applyOne st removed (.RemoveFromVisGroup c id visGroupId)
        = .ok (updateObject st c id o', removed)
      ∧ getObjectProperty (.obj o') visgroupPath
          = .ok (.list ((sortStrings
              ((s.filter (fun i => i != visGroupId)).map (fun i => toString i))).map .str)))
    ∧ setObjectVisgroups [] [2, 10]
        = .ok [("editor", .obj [("visgroupid", .list [.str "10", .str "2"])])] := by
  refine ⟨?_, ?_, by decide⟩
  · obtain ⟨o', hset, hget⟩ := setVisgroupProperty_roundtrip o
      (.list ((sortStrings
        (((if visGroupId ∈ s then s else s ++ [visGroupId]).map
          (fun i => toString i)))).map .str)) hed
    refine ⟨o', ?_, hget⟩
    simp [applyOne, hobj, hvis, setObjectVisgroups, hset, Except.bind, Bind.bind,
      pure, Except.pure]
  · intro hmem
    obtain ⟨o', hset, hget⟩ := setVisgroupProperty_roundtrip o
      (.list ((sortStrings
        ((s.filter (fun i => i != visGroupId)).map (fun i => toString i))).map .str)) hed
    refine ⟨o', ?_, hget⟩
    simp [applyOne, hobj, hvis, setObjectVisgroups, hset, hmem, Except.bind, Bind.bind,
      pure, Except.pure]

/-- Witness for C8 at a concrete object: solid 1 is in VisGroups {2}, adding
VisGroup 10 stores ["10", "2"] (lexicographic string order). -/
theorem c8_visgroup_membership_sorted_witness :
    ∃ o', applyOne
        ⟨[("versioninfo", .obj [("mapversion", .str "1")]), ("world", .ref .world 1)],
         1, [("id", .int 1)],
         [(1, [("id", .int 2), ("editor", .obj [("visgroupid", .str "2")])])],
         [], [], [], [], [], [], [(.world, 1)]⟩
        [] (.AddToVisGroup .solid 1 10)
      = .ok (updateObject
        ⟨[("versioninfo", .obj [("mapversion", .str "1")]), ("world", .ref .world 1)],
         1, [("id", .int 1)],
         [(1, [("id", .int 2), ("editor", .obj [("visgroupid", .str "2")])])],
         [], [], [], [], [], [], [(.world, 1)]⟩
        .solid 1 o', [])
      ∧ getObjectProperty (.obj o') visgroupPath
          = .ok (.list [.str "10", .str "2"]) := by
  obtain ⟨o', h1, h2⟩ := (c8_visgroup_membership_sorted
    ⟨[("versioninfo", .obj [("mapversion", .str "1")]), ("world", .ref .world 1)],
     1, [("id", .int 1)],
     [(1, [("id", .int 2), ("editor", .obj [("visgroupid", .str "2")])])],
     [], [], [], [], [], [], [(.world, 1)]⟩
    [] .solid 1 10
    [("id", .int 2), ("editor", .obj [("visgroupid", .str "2")])]
    [2] (by rfl) (by rfl) (Or.inr ⟨[("visgroupid", .str "2")], by rfl⟩)).1
  exact ⟨o', h1, by simpa using h2⟩

/-! Claim C7. -/

/-- `get_object` after writing an object back at the same (class, id). -/
theorem getObject_updateObject_self (st : VmfState) (c : VmfClass) (id : Int) (o : Obj) :
    getObject (updateObject st c id o) c id = .ok o := by
  cases c <;> simp [getObject, updateObject, alookup_aset_self]

/-- Replacing the class table of `c` with an assignment at `id` does not
change `get_object` at any other (class, id). -/
theorem getObject_setClassTable_ne (st : VmfState) (c : VmfClass)
    (tbl : List (Int × Obj)) (hc : classTable st c = .ok tbl)
    (id : Int) (newObj : Obj) (pc : VmfClass) (pid : Int) (hne : (pc, pid) ≠ (c, id)) :
    getObject (setClassTable st c (aset tbl id newObj)) pc pid = getObject st pc pid := by
  have hpid : pc = c → pid ≠ id := by
    intro h1 h2
    exact hne (by rw [h1, h2])
  cases c with
  | world => exact absurd hc (by simp [classTable])
  | solid =>
      have htbl : tbl = st.solidsById := by
        simpa [classTable] using hc.symm
      subst htbl
      cases pc <;>
        first
          | rfl
          | (simp only [getObject, setClassTable]
             rw [alookup_aset_ne _ _ _ _ (hpid rfl)])
  | side =>
      have htbl : tbl = st.sidesById := by
        simpa [classTable] using hc.symm
      subst htbl
      cases pc <;>
        first
          | rfl
          | (simp only [getObject, setClassTable]
             rw [alookup_aset_ne _ _ _ _ (hpid rfl)])
  | group =>
      have htbl : tbl = st.groupsById := by
        simpa [classTable] using hc.symm
      subst htbl
      cases pc <;>
        first
          | rfl
          | (simp only [getObject, setClassTable]
             rw [alookup_aset_ne _ _ _ _ (hpid rfl)])
  | entity =>
      have htbl : tbl = st.entitiesById := by
        simpa [classTable] using hc.symm
      subst htbl
      cases pc <;>
        first
          | rfl
          | (simp only [getObject, setClassTable]
             rw [alookup_aset_ne _ _ _ _ (hpid rfl)])
  | visgroup =>
      have htbl : tbl = st.visGroupsById := by
        simpa [classTable] using hc.symm
      subst htbl
      cases pc <;>
        first
          | rfl
          | (simp only [getObject, setClassTable]
             rw [alookup_aset_ne _ _ _ _ (hpid rfl)])


/-- Assigning a key its current value leaves the dictionary unchanged. -/
theorem aset_lookup_eq {κ β : Type} [BEq κ] [LawfulBEq κ]
    (l : List (κ × β)) (k : κ) (v : β) (h : alookup l k = some v) :
    aset l k v = l := by
  induction l with
  | nil => simp [alookup, List.find?] at h
  | cons p rest ih =>
      obtain ⟨k', v'⟩ := p
      by_cases hk : k' == k
      · have : v' = v := by
          simpa [alookup, List.find?, hk] using h
        simp [aset, hk, this]
      · simp only [alookup, List.find?, hk] at h
        simp only [aset]
        rw [if_neg (by simpa using hk)]
        rw [ih (by simpa [alookup] using h)]

/-- Replacing a non-world class table makes it the new table. -/
theorem classTable_setClassTable_self (st : VmfState) (c : VmfClass)
    (hc : c ≠ .world) (t : List (Int × Obj)) :
    classTable (setClassTable st c t) c = .ok t := by
  cases c <;> simp_all [classTable, setClassTable]

/-- After inserting an object into its class table, `get_object` finds it. -/
theorem getObject_setClassTable_self (st : VmfState) (c : VmfClass)
    (hc : c ≠ .world) (tbl : List (Int × Obj)) (id : Int) (o : Obj) :
    getObject (setClassTable st c (aset tbl id o)) c id = .ok o := by
  cases c <;> simp_all [getObject, setClassTable, alookup_aset_self]

/-- Writing an object back at a different (class, id) leaves a class table's
other entries reachable. -/
theorem classTable_updateObject_ne (st : VmfState) (pc : VmfClass) (pid : Int)
    (o : Obj) (c : VmfClass) (idq : Int) (hne : (pc, pid) ≠ (c, idq))
    (tbl : List (Int × Obj)) (h : classTable st c = .ok tbl) :
    ∃ tbl1, classTable (updateObject st pc pid o) c = .ok tbl1
      ∧ alookup tbl1 idq = alookup tbl idq := by
  have hpid : pc = c → pid ≠ idq := by
    intro h1 h2
    exact hne (by rw [h1, h2])
  cases c with
  | world => exact absurd h (by simp [classTable])
  | solid =>
      have htbl : tbl = st.solidsById := by simpa [classTable] using h.symm
      subst htbl
      cases pc <;>
        first
          | exact ⟨_, rfl, rfl⟩
          | exact ⟨_, rfl, alookup_aset_ne _ _ _ _ (fun h2 => (hpid rfl) h2.symm)⟩
  | side =>
      have htbl : tbl = st.sidesById := by simpa [classTable] using h.symm
      subst htbl
      cases pc <;>
        first
          | exact ⟨_, rfl, rfl⟩
          | exact ⟨_, rfl, alookup_aset_ne _ _ _ _ (fun h2 => (hpid rfl) h2.symm)⟩
  | group =>
      have htbl : tbl = st.groupsById := by simpa [classTable] using h.symm
      subst htbl
      cases pc <;>
        first
          | exact ⟨_, rfl, rfl⟩
          | exact ⟨_, rfl, alookup_aset_ne _ _ _ _ (fun h2 => (hpid rfl) h2.symm)⟩
  | entity =>
      have htbl : tbl = st.entitiesById := by simpa [classTable] using h.symm
      subst htbl
      cases pc <;>
        first
          | exact ⟨_, rfl, rfl⟩
          | exact ⟨_, rfl, alookup_aset_ne _ _ _ _ (fun h2 => (hpid rfl) h2.symm)⟩
  | visgroup =>
      have htbl : tbl = st.visGroupsById := by simpa [classTable] using h.symm
      subst htbl
      cases pc <;>
        first
          | exact ⟨_, rfl, rfl⟩
          | exact ⟨_, rfl, alookup_aset_ne _ _ _ _ (fun h2 => (hpid rfl) h2.symm)⟩

/-- Frame: replacing a class table does not touch the counters. -/
theorem setClassTable_lastId (st : VmfState) (c : VmfClass) (t : List (Int × Obj)) :
    (setClassTable st c t).lastIdForVmfClass = st.lastIdForVmfClass := by
  cases c <;> rfl

/-- Frame: replacing a class table does not touch the raw tree. -/
theorem setClassTable_vmfData (st : VmfState) (c : VmfClass) (t : List (Int × Obj)) :
    (setClassTable st c t).vmfData = st.vmfData := by
  cases c <;> rfl

/-- Frame: replacing a class table does not touch the parent table. -/
theorem setClassTable_parentInfo (st : VmfState) (c : VmfClass) (t : List (Int × Obj)) :
    (setClassTable st c t).parentInfoForObject = st.parentInfoForObject := by
  cases c <;> rfl

/-- Frame: writing an object back does not touch the counters. -/
theorem updateObject_lastId (st : VmfState) (c : VmfClass) (i : Int) (o : Obj) :
    (updateObject st c i o).lastIdForVmfClass = st.lastIdForVmfClass := by
  cases c <;> rfl

/-- Frame: writing an object back does not touch the parent table. -/
theorem updateObject_parentInfo (st : VmfState) (c : VmfClass) (i : Int) (o : Obj) :
    (updateObject st c i o).parentInfoForObject = st.parentInfoForObject := by
  cases c <;> rfl

/-- Frame: a counter update does not change `get_object`. -/
theorem getObject_setLastId (st : VmfState) (x : List (VmfClass × Int))
    (pc : VmfClass) (pid : Int) :
    getObject { st with lastIdForVmfClass := x } pc pid = getObject st pc pid := by
  cases pc <;> rfl

/-- Frame: a counter update does not change the class tables. -/
theorem classTable_setLastId (st : VmfState) (x : List (VmfClass × Int)) (c : VmfClass) :
    classTable { st with lastIdForVmfClass := x } c = classTable st c := by
  cases c <;> rfl

/-- Frame: a parent-table update does not change the class tables. -/
theorem classTable_setParentInfo (st : VmfState)
    (x : List ((VmfClass × Int) × (VmfClass × Int))) (c : VmfClass) :
    classTable { st with parentInfoForObject := x } c = classTable st c := by
  cases c <;> rfl


/-- Frame: a raw-tree update does not change the class tables. -/
theorem classTable_setVmfData (st : VmfState) (x : Obj) (c : VmfClass) :
    classTable { st with vmfData := x } c = classTable st c := by
  cases c <;> rfl

/-- C7: applying an `AddObject` delta (for a non-world class with an existing
per-class counter) advances the counter to the delta id exactly when it
exceeds the counter (the counter becomes the max of the two), inserts the
fresh object (an OrderedDict holding only its id) into its class table, and
inserts a reference to it into the raw tree under its designated parent: at
the root VMF data for a top-level non-VisGroup object, inside the root
`visgroups` object for a top-level VisGroup, and under the parent object
(whose parent-info entry is recorded) otherwise. -/
theorem c7_addobject_apply (st : VmfState) (removed : List (VmfClass × Int))
    (c : VmfClass) (id lastId : Int)
    (hc : c ≠ .world)
    (hlast : alookup st.lastIdForVmfClass c = some lastId) :
    let newObj : Obj := if c = .visgroup then [("visgroupid", .int id)] else [("id", .int id)]
    (c ≠ .visgroup →
      ∃ st', applyOne st removed (.AddObject none c id) = .ok (st', removed)
        ∧ alookup st'.lastIdForVmfClass c = some (max lastId id)
        ∧ (∃ tbl, classTable st' c = .ok tbl ∧ alookup tbl id = some newObj)
        ∧ childValues st'.vmfData (className c)
            = childValues st.vmfData (className c) ++ [.ref c id])
    ∧ (c = .visgroup →
      ∀ vg, alookup st.vmfData "visgroups" = some (.obj vg) →
      ∃ st', applyOne st removed (.AddObject none c id) = .ok (st', removed)
        ∧ alookup st'.lastIdForVmfClass c = some (max lastId id)
        ∧ (∃ tbl, classTable st' c = .ok tbl ∧ alookup tbl id = some newObj)
        ∧ (∃ vg', alookup st'.vmfData "visgroups" = some (.obj vg')
            ∧ childValues vg' "visgroup" = childValues vg "visgroup" ++ [.ref c id]))
    ∧ (∀ pc pid parentObj, (pc, pid) ≠ (c, id) →
      getObject st pc pid = .ok parentObj →
      ∃ st', applyOne st removed (.AddObject (some (pc, pid)) c id) = .ok (st', removed)
        ∧ alookup st'.lastIdForVmfClass c = some (max lastId id)
        ∧ (∃ tbl, classTable st' c = .ok tbl ∧ alookup tbl id = some newObj)
        ∧ getObjectParentInfo st' c id = some (pc, pid)
        ∧ (∃ po', getObject st' pc pid = .ok po'
            ∧ childValues po' (className c)
                = childValues parentObj (className c) ++ [.ref c id])) := by
  intro newObj
  have hst1eq : (if id > lastId
        then { st with lastIdForVmfClass := aset st.lastIdForVmfClass c id }
        else st)
      = { st with lastIdForVmfClass := aset st.lastIdForVmfClass c (max lastId id) } := by
    split
    · rw [max_eq_right (by omega)]
    · rw [max_eq_left (by omega), aset_lookup_eq _ _ _ hlast]
  obtain ⟨tbl, htbl⟩ : ∃ tbl, classTable st c = .ok tbl := by
    cases c <;> first | exact absurd rfl hc | exact ⟨_, rfl⟩
  have happly : ∀ P, applyOne st removed (.AddObject P c id)
      = (do
          let st3 ← addObjectToData
            (setClassTable { st with lastIdForVmfClass := aset st.lastIdForVmfClass c (max lastId id) }
              c (aset tbl id newObj)) c id P
          Except.ok (st3, removed)) := by
    intro P
    simp only [applyOne, hlast, hst1eq, classTable_setLastId, htbl, Except.bind, Bind.bind]
  have hget2 : getObject
      (setClassTable { st with lastIdForVmfClass := aset st.lastIdForVmfClass c (max lastId id) }
        c (aset tbl id newObj)) c id = .ok newObj :=
    getObject_setClassTable_self _ c hc tbl id newObj
  have hlastAfter : ∀ x : Obj,
      alookup (setClassTable { st with lastIdForVmfClass := aset st.lastIdForVmfClass c (max lastId id) }
        c (aset tbl id newObj)).lastIdForVmfClass c = some (max lastId id) := by
    intro _
    rw [setClassTable_lastId]
    exact alookup_aset_self _ _ _
  refine ⟨?_, ?_, ?_⟩
  · intro hcv
    refine ⟨{ (setClassTable { st with lastIdForVmfClass := aset st.lastIdForVmfClass c (max lastId id) }
        c (aset tbl id newObj)) with
        vmfData := addObjectEntry st.vmfData (className c) (.ref c id) }, ?_, ?_, ?_, ?_⟩
    · rw [happly none]
      have haod : addObjectToData
          (setClassTable { st with lastIdForVmfClass := aset st.lastIdForVmfClass c (max lastId id) }
            c (aset tbl id newObj)) c id none
          = .ok { (setClassTable { st with lastIdForVmfClass := aset st.lastIdForVmfClass c (max lastId id) }
              c (aset tbl id newObj)) with
              vmfData := addObjectEntry st.vmfData (className c) (.ref c id) } := by
        simp only [addObjectToData, hget2, Except.bind, Bind.bind]
        rw [if_neg hcv]
        rw [show (setClassTable { st with lastIdForVmfClass := aset st.lastIdForVmfClass c (max lastId id) }
          c (aset tbl id newObj)).vmfData = st.vmfData from setClassTable_vmfData _ c _]
      rw [haod]
      rfl
    · exact hlastAfter []
    · refine ⟨aset tbl id newObj, ?_, alookup_aset_self _ _ _⟩
      rw [classTable_setVmfData]
      exact classTable_setClassTable_self _ c hc _
    · exact childValues_addObjectEntry st.vmfData (className c) c id
  · intro hcv vg hvg
    subst hcv
    refine ⟨{ (setClassTable { st with lastIdForVmfClass := aset st.lastIdForVmfClass .visgroup (max lastId id) }
        .visgroup (aset tbl id newObj)) with
        vmfData := aset st.vmfData "visgroups"
          (.obj (addObjectEntry vg "visgroup" (.ref .visgroup id))) }, ?_, ?_, ?_, ?_⟩
    · rw [happly none]
      have haod : addObjectToData
          (setClassTable { st with lastIdForVmfClass := aset st.lastIdForVmfClass .visgroup (max lastId id) }
            .visgroup (aset tbl id newObj)) .visgroup id none
          = .ok { (setClassTable { st with lastIdForVmfClass := aset st.lastIdForVmfClass .visgroup (max lastId id) }
              .visgroup (aset tbl id newObj)) with
              vmfData := aset st.vmfData "visgroups"
                (.obj (addObjectEntry vg "visgroup" (.ref .visgroup id))) } := by
        simp only [addObjectToData, hget2, Except.bind, Bind.bind]
        rw [show (setClassTable { st with lastIdForVmfClass := aset st.lastIdForVmfClass .visgroup (max lastId id) }
          .visgroup (aset tbl id newObj)).vmfData = st.vmfData from setClassTable_vmfData _ _ _]
        rw [hvg]
        rfl
      rw [haod]
      rfl
    · exact hlastAfter []
    · refine ⟨aset tbl id newObj, ?_, alookup_aset_self _ _ _⟩
      rw [classTable_setVmfData]
      exact classTable_setClassTable_self _ .visgroup hc _
    · exact ⟨addObjectEntry vg "visgroup" (.ref .visgroup id), alookup_aset_self _ _ _,
        childValues_addObjectEntry vg "visgroup" .visgroup id⟩
  · intro pc pid parentObj hne hpar
    have hgetPar : getObject
        (setClassTable { st with lastIdForVmfClass := aset st.lastIdForVmfClass c (max lastId id) }
          c (aset tbl id newObj)) pc pid = .ok parentObj := by
      rw [getObject_setClassTable_ne _ c tbl (by rw [classTable_setLastId]; exact htbl)
        id newObj pc pid hne]
      rw [getObject_setLastId]
      exact hpar
    refine ⟨updateObject
        { (setClassTable { st with lastIdForVmfClass := aset st.lastIdForVmfClass c (max lastId id) }
            c (aset tbl id newObj)) with
          parentInfoForObject :=
            aset (setClassTable { st with lastIdForVmfClass := aset st.lastIdForVmfClass c (max lastId id) }
              c (aset tbl id newObj)).parentInfoForObject (c, id) (pc, pid) }
        pc pid (addObjectEntry parentObj (className c) (.ref c id)), ?_, ?_, ?_, ?_, ?_⟩
    · rw [happly (some (pc, pid))]
      have haod : addObjectToData
          (setClassTable { st with lastIdForVmfClass := aset st.lastIdForVmfClass c (max lastId id) }
            c (aset tbl id newObj)) c id (some (pc, pid))
          = .ok (updateObject
            { (setClassTable { st with lastIdForVmfClass := aset st.lastIdForVmfClass c (max lastId id) }
                c (aset tbl id newObj)) with
              parentInfoForObject :=
                aset (setClassTable { st with lastIdForVmfClass := aset st.lastIdForVmfClass c (max lastId id) }
                  c (aset tbl id newObj)).parentInfoForObject (c, id) (pc, pid) }
            pc pid (addObjectEntry parentObj (className c) (.ref c id))) := by
        simp only [addObjectToData, hget2, hgetPar, Except.bind, Bind.bind]
      rw [haod]
      rfl
    · rw [updateObject_lastId]
      exact hlastAfter []
    · have hct : classTable
          { (setClassTable { st with lastIdForVmfClass := aset st.lastIdForVmfClass c (max lastId id) }
              c (aset tbl id newObj)) with
            parentInfoForObject :=
              aset (setClassTable { st with lastIdForVmfClass := aset st.lastIdForVmfClass c (max lastId id) }
                c (aset tbl id newObj)).parentInfoForObject (c, id) (pc, pid) }
          c = .ok (aset tbl id newObj) := by
        rw [classTable_setParentInfo]
        exact classTable_setClassTable_self _ c hc _
      obtain ⟨tbl1, h1, h2⟩ := classTable_updateObject_ne _ pc pid
        (addObjectEntry parentObj (className c) (.ref c id)) c id hne _ hct
      exact ⟨tbl1, h1, by rw [h2]; exact alookup_aset_self _ _ _⟩
    · unfold getObjectParentInfo
      rw [updateObject_parentInfo]
      exact alookup_aset_self _ _ _
    · exact ⟨addObjectEntry parentObj (className c) (.ref c id),
        getObject_updateObject_self _ pc pid _,
        childValues_addObjectEntry parentObj (className c) c id⟩

/-- Witness for C7: adding Solid 7 to a map whose solid counter is 5 advances
the counter to 7, stores the fresh `{id: 7}` object in the solid table, and
appends a reference to it at the end of the root data's `solid` children. -/
theorem c7_addobject_apply_witness :
    VmfClass.solid ≠ VmfClass.world
    ∧ (∃ st', applyOne
          ⟨[("world", .ref .world 1)], 1, [("id", .str "1")],
           [], [], [], [], [], [], [], [(.world, 1), (.solid, 5)]⟩
          [] (.AddObject none .solid 7) = .ok (st', [])
        ∧ alookup st'.lastIdForVmfClass .solid = some (max 5 7)
        ∧ (∃ tbl, classTable st' .solid = .ok tbl ∧ alookup tbl 7 = some [("id", .int 7)])
        ∧ childValues st'.vmfData (className .solid)
            = childValues
                (⟨[("world", .ref .world 1)], 1, [("id", .str "1")],
                  [], [], [], [], [], [], [], [(.world, 1), (.solid, 5)]⟩ : VmfState).vmfData
                (className .solid) ++ [.ref .solid 7]) := by
  refine ⟨by decide, ?_⟩
  exact (c7_addobject_apply
      ⟨[("world", .ref .world 1)], 1, [("id", .str "1")],
       [], [], [], [], [], [], [], [(.world, 1), (.solid, 5)]⟩
      [] .solid 7 5 (by decide) (by rfl)).1 (by decide)

/-! ## `compare_vmfs` (vmf.py lines 966-1349) and its helpers. -/

/-- `IGNORED_KEYS` of `iter_properties` (vmf.py lines 908-912):
`('id', 'mapversion', 'connections') + VMF.CLASSES`. -/
def ignoredKeys : List String :=
  ["id", "mapversion", "connections",
   "world", "solid", "side", "group", "entity", "visgroup"]

/-- The inclusion test of `iter_properties` (vmf.py lines 917-918): a key is
iterated when it is not ignored, or when it is the specially-handled string
`solid` key of a point entity. -/
def includeProp (k : String) (v : Vdf) : Bool :=
  !(ignoredKeys.contains k)
  || (k == "solid" && (match v with | .str _ => true | _ => false))

mutual
/-- `iter_properties` (vmf.py lines 897-931) over the entries of an object:
string and list values are yielded as-is, dict values are recursed into with
the key prepended to the path, and any other value under an included key hits
the `assert False` (an `int`; a `ref` — an aliased class object — only ever
sits under a class-name key, which is always ignored, so it is modelled by the
same assertion error).  The Python generator is consumed strictly here. -/
def iterProps : List (String × Vdf) → Except VErr (List (List String × Vdf))
  | [] => .ok []
  | (k, v) :: rest => do
      let here ← iterPropsOne k v
      let tail ← iterProps rest
      .ok (here ++ tail)

/-- The per-binding part of `iter_properties`. -/
def iterPropsOne (k : String) : Vdf → Except VErr (List (List String × Vdf))
  | .str s => .ok (if includeProp k (.str s) then [([k], .str s)] else [])
  | .list l => .ok (if includeProp k (.list l) then [([k], .list l)] else [])
  | .obj sub =>
      if includeProp k (.obj sub) then do
        let subs ← iterProps sub
        .ok (subs.map (fun p => (k :: p.1, p.2)))
      else .ok []
  | .int n => if includeProp k (.int n) then .error .assertionError else .ok []
  | .ref c i => if includeProp k (.ref c i) then .error .assertionError else .ok []
end

/-- `iter_outputs` (vmf.py lines 934-963): walk the `connections` entries in
order, wrapping a scalar string value into a singleton list (a dict value
fails the `isinstance(values, list)` assert; so does an aliased dict and an
int, neither of which parsing ever places there), and tag each (output, value)
occurrence with a running per-pair count.  A non-dict `connections` value has
no `iteritems` (AttributeError); a list or dict element is unhashable as a
count key (TypeError); an int element, which parsing never produces, is
canonicalised to its decimal string. -/
def iterOutputs (o : Obj) : Except VErr (List (String × String × Nat)) :=
  match alookup o "connections" with
  | none => .ok []
  | some (.obj conns) => do
      let r ← conns.foldlM
        (fun (acc : List (String × String × Nat) × List ((String × String) × Nat)) p => do
          let vs ← match p.2 with
            | .str s => Except.ok [s]
            | .list l => l.mapM (fun e =>
                match e with
                | Vdf.str s => Except.ok s
                | Vdf.int n => Except.ok (toString n)
                | _ => Except.error VErr.typeError)
            | _ => Except.error VErr.assertionError
          pure (vs.foldl (fun acc2 value =>
            let count := (alookup acc2.2 (p.1, value)).getD 0
            (acc2.1 ++ [(p.1, value, count)], aset acc2.2 (p.1, value) (count + 1)))
            acc))
        ([], [])
      .ok r.1
  | some _ => .error .attributeError

/-- `VMF.iter_objects` (vmf.py lines 357-384): VisGroups, then Groups, the
World, Entities, Solids and Sides, each table in insertion order. -/
def iterObjects (st : VmfState) : List (VmfClass × Obj) :=
  st.visGroupsById.map (fun p => (VmfClass.visgroup, p.2))
  ++ st.groupsById.map (fun p => (VmfClass.group, p.2))
  ++ [(VmfClass.world, st.world)]
  ++ st.entitiesById.map (fun p => (VmfClass.entity, p.2))
  ++ st.solidsById.map (fun p => (VmfClass.solid, p.2))
  ++ st.sidesById.map (fun p => (VmfClass.side, p.2))

/-- The id property name used when iterating objects of a class
(vmf.py lines 1028-1031 and 1152-1155). -/
def idPropName (c : VmfClass) : String :=
  if c = .visgroup then "visgroupid" else "id"

/-- `VMF.next_available_id` (vmf.py lines 426-432): bump the per-class
counter (starting it at 1 on KeyError) and return it, together with the
mutated VMF. -/
def nextAvailableId (st : VmfState) (c : VmfClass) : Int × VmfState :=
  let n := (alookup st.lastIdForVmfClass c).getD 0 + 1
  (n, { st with lastIdForVmfClass := aset st.lastIdForVmfClass c n })

/-- Resolve a tree node standing for a VMF object dict: inline pseudo-object
or a reference into a class table (indexing anything else is a TypeError). -/
def resolveObj (st : VmfState) : Vdf → Except VErr Obj
  | .obj d => .ok d
  | .ref c i => getObject st c i
  | _ => .error .typeError

/-- `VMF.iter_sub_object_infos` (vmf.py lines 386-424). -/
def iterSubObjectInfos (st : VmfState) (c : VmfClass) (id : Int) :
    Except VErr (List (VmfClass × Int)) := do
  let o ← getObject st c id
  let sub : Option (VmfClass × String) :=
    match c with
    | .world => some (.solid, "id")
    | .entity => some (.solid, "id")
    | .solid => some (.side, "id")
    | .visgroup => some (.visgroup, "visgroupid")
    | .side => none
    | .group => none
  match sub with
  | none => .ok []
  | some (subClass, subProp) =>
      match alookup o (className subClass) with
      | none => .ok []
      | some v => do
          let elems ← match v with
            | Vdf.list l => Except.ok l
            | Vdf.obj d => Except.ok [Vdf.obj d]
            | Vdf.ref c2 i2 => Except.ok [Vdf.ref c2 i2]
            | Vdf.str _ =>
                if c = .entity then Except.ok []
                else Except.error VErr.assertionError
            | Vdf.int _ => Except.error VErr.assertionError
          elems.mapM (fun e => do
            let so ← resolveObj st e
            let sid ← getIdProp so subProp
            pure (subClass, sid))

/-- The accumulated state of a `compare_vmfs` run: the delta list, the
positions (into that list) of the `sides` property deltas recorded for the
fixup pass, `newIdForNewChildObject`, the `changeObjectDeltaSet` (as a list),
and the parent VMF (which `next_available_id` mutates). -/
structure CompareAcc where
  deltas : List Delta
  sidesIdx : List Nat
  newIdMap : List ((VmfClass × Int) × Int)
  changeSet : List Delta
  parentSt : VmfState
deriving DecidableEq, Repr

/-- The inner closure `add_visgroup_deltas` (vmf.py lines 994-1024): set
difference of the (already int-converted) VisGroup id collections in both
directions, remapping new-VisGroup ids through `newIdForNewChildObject`.  The
frozensets are canonicalised as deduplicated lists in encounter order. -/
def addVisgroupDeltas (c : VmfClass) (id : Int) (baseIds childIds : List Int)
    (newIdMap : List ((VmfClass × Int) × Int)) : List Delta :=
  let base := baseIds.foldl (fun acc i => if i ∈ acc then acc else acc ++ [i]) []
  let child := childIds.foldl (fun acc i => if i ∈ acc then acc else acc ++ [i]) []
  let newIds := child.filter (fun i => !(base.contains i))
  let deletedIds := base.filter (fun i => !(child.contains i))
  newIds.map (fun g =>
    Delta.AddToVisGroup c id ((alookup newIdMap (.visgroup, g)).getD g))
  ++ deletedIds.map (fun g => Delta.RemoveFromVisGroup c id g)

/-- The sides-fixup bookkeeping test (vmf.py lines 1093-1097, 1226-1229 and
1266-1271): `vmfClass == VMF.ENTITY and childObject['classname'] in
SIDES_ENTITY_CLASSNAMES and key == 'sides'`, with Python's left-to-right
short-circuiting — on an entity the classname subscript runs first and raises
KeyError when absent. -/
def sidesCheck (c : VmfClass) (o : Obj) (k : List String) : Except VErr Bool :=
  if c = .entity then
    match alookup o "classname" with
    | none => .error .keyError
    | some cn =>
        .ok ((cn == .str "env_cubemap" || cn == .str "info_overlay")
          && k == ["sides"])
  else .ok false

/-- The loop body of `add_change_object_deltas` (vmf.py lines 1122-1148),
with explicit fuel for the parent-chain walk. -/
def addChangeObjectGo (parentSt childSt : VmfState) :
    Nat → VmfClass × Int → CompareAcc → Except VErr CompareAcc
  | 0, _, acc => .ok acc
  | Nat.succ n, (c, id), acc =>
      let d := Delta.ChangeObject c id
      if acc.changeSet.contains d then .ok acc
      else
        let acc := { acc with changeSet := acc.changeSet ++ [d],
                              deltas := acc.deltas ++ [d] }
        match getObjectParentInfo parentSt c id with
        | none => .ok acc
        | some (pc, pid) =>
            if pc = .entity then
              if c = .solid then
                if (alookup childSt.entityIdForSolidId id).isSome then
                  addChangeObjectGo parentSt childSt n (pc, pid) acc
                else .ok acc
              else .error .assertionError
            else addChangeObjectGo parentSt childSt n (pc, pid) acc

/-- `add_change_object_deltas` (vmf.py lines 1109-1148): VisGroups are
skipped; otherwise walk up the parent chain adding a `ChangeObject` per
object until one is already in the dedup set, the chain ends, or an untied
solid's old entity is reached.  Every object visited after the first comes
out of `parentInfoForObject` and the dedup set grows each step, so the walk
is bounded by the size of that table (the fuel). -/
def addChangeObjectDeltas (parentSt childSt : VmfState)
    (acc : CompareAcc) (c : VmfClass) (id : Int) : Except VErr CompareAcc :=
  if c = .visgroup then .ok acc
  else addChangeObjectGo parentSt childSt
    (parentSt.parentInfoForObject.length + 1) (c, id) acc

/-- The per-property body of the new-object sweep (vmf.py lines 1060-1097). -/
def newObjPropStep (c : VmfClass) (newId : Int) (o : Obj)
    (acc : CompareAcc) (kv : List String × Vdf) : Except VErr CompareAcc :=
  if c = .visgroup ∧ (kv.1 = ["visgroup"] ∨ kv.1 = ["visgroupid"]) then .ok acc
  else if kv.1 = visgroupPath then do
    let vs := match kv.2 with
      | .list l => l
      | other => [other]
    let ids ← vs.mapM vdfToInt
    .ok { acc with deltas := acc.deltas ++ addVisgroupDeltas c newId [] ids acc.newIdMap }
  else do
    let v ← if kv.1 = groupPath then do
        let gid ← vdfToInt kv.2
        Except.ok (Vdf.str (toString ((alookup acc.newIdMap (.group, gid)).getD gid)))
      else Except.ok kv.2
    let track ← sidesCheck c o kv.1
    .ok { acc with
      sidesIdx := if track then acc.sidesIdx ++ [acc.deltas.length] else acc.sidesIdx,
      deltas := acc.deltas ++ [Delta.AddProperty c newId kv.1 v] }

/-- Processing of one child object in the new-objects sweep of `compare_vmfs`
(vmf.py lines 1026-1104). -/
def compareNewObject (childSt : VmfState) (acc : CompareAcc)
    (co : VmfClass × Obj) : Except VErr CompareAcc := do
  let id ← getIdProp co.2 (idPropName co.1)
  let present ← hasObject acc.parentSt co.1 id
  if present then .ok acc
  else
    let (newId, pst) := nextAvailableId acc.parentSt co.1
    let newIdMap := aset acc.newIdMap (co.1, id) newId
    let pInfo := match getObjectParentInfo childSt co.1 id with
      | none => none
      | some info =>
          match alookup newIdMap info with
          | some nid => some (info.1, nid)
          | none => some info
    let acc := { acc with
      parentSt := pst,
      newIdMap := newIdMap,
      deltas := acc.deltas ++ [Delta.AddObject pInfo co.1 newId] }
    let props ← iterProps co.2
    let acc ← props.foldlM (newObjPropStep co.1 newId co.2) acc
    if co.1 = .entity then do
      let outs ← iterOutputs co.2
      .ok { acc with
        deltas := acc.deltas ++ outs.map (fun t => Delta.AddOutput newId t.1 t.2.1 t.2.2) }
    else .ok acc

/-- The group-id remap of the changed/deleted sweep (vmf.py lines 1208-1214
and 1250-1256): a direct subscript of `newIdForNewChildObject`, raising
KeyError when the group is not a newly-added one. -/
def remapGroupValue (newIdMap : List ((VmfClass × Int) × Int)) (k : List String)
    (v : Vdf) : Except VErr Vdf :=
  if k = groupPath then do
    let gid ← vdfToInt v
    match alookup newIdMap (.group, gid) with
    | some nid => Except.ok (Vdf.str (toString nid))
    | none => Except.error VErr.keyError
  else Except.ok v

/-- The new-properties loop body of the changed/deleted sweep (vmf.py lines
1199-1229): `o` is the parent object, `co2` the child object. -/
def oldPropNewStep (childSt : VmfState) (c : VmfClass) (id : Int) (o co2 : Obj)
    (acc : CompareAcc) (kv : List String × Vdf) : Except VErr CompareAcc :=
  if kv.1 = visgroupPath then .ok acc
  else do
    let has ← objectHasProperty (.obj o) kv.1
    if has then .ok acc
    else do
      let acc ← addChangeObjectDeltas acc.parentSt childSt acc c id
      let v ← remapGroupValue acc.newIdMap kv.1 kv.2
      let track ← sidesCheck c co2 kv.1
      .ok { acc with
        sidesIdx := if track then acc.sidesIdx ++ [acc.deltas.length] else acc.sidesIdx,
        deltas := acc.deltas ++ [Delta.AddProperty c id kv.1 v] }

/-- The changed/deleted-properties loop body of the changed/deleted sweep
(vmf.py lines 1231-1271). -/
def oldPropChangedStep (childSt : VmfState) (c : VmfClass) (id : Int) (co2 : Obj)
    (acc : CompareAcc) (kv : List String × Vdf) : Except VErr CompareAcc :=
  if kv.1 = visgroupPath then .ok acc
  else
    match getObjectProperty (.obj co2) kv.1 with
    | .error _ => do
        let acc ← addChangeObjectDeltas acc.parentSt childSt acc c id
        .ok { acc with deltas := acc.deltas ++ [Delta.RemoveProperty c id kv.1] }
    | .ok cv =>
        if cv ≠ kv.2 then do
          let acc ← addChangeObjectDeltas acc.parentSt childSt acc c id
          let cv2 ← remapGroupValue acc.newIdMap kv.1 cv
          let track ← sidesCheck c co2 kv.1
          .ok { acc with
            sidesIdx := if track then acc.sidesIdx ++ [acc.deltas.length] else acc.sidesIdx,
            deltas := acc.deltas ++ [Delta.ChangeProperty c id kv.1 cv2] }
        else .ok acc

/-- Deduplication in encounter order: the canonical form of a Python
frozenset built from a list. -/
def dedupList {α : Type} [DecidableEq α] (l : List α) : List α :=
  l.foldl (fun acc x => if x ∈ acc then acc else acc ++ [x]) []

/-- The new-outputs loop body (vmf.py lines 1282-1287). -/
def newOutStep (childSt : VmfState) (c : VmfClass) (id : Int)
    (acc : CompareAcc) (t : String × String × Nat) : Except VErr CompareAcc := do
  let acc ← addChangeObjectDeltas acc.parentSt childSt acc c id
  .ok { acc with deltas := acc.deltas ++ [Delta.AddOutput id t.1 t.2.1 t.2.2] }

/-- The deleted-outputs loop body (vmf.py lines 1290-1295). -/
def delOutStep (childSt : VmfState) (c : VmfClass) (id : Int)
    (acc : CompareAcc) (t : String × String × Nat) : Except VErr CompareAcc := do
  let acc ← addChangeObjectDeltas acc.parentSt childSt acc c id
  .ok { acc with deltas := acc.deltas ++ [Delta.RemoveOutput id t.1 t.2.1 t.2.2] }

/-- Processing of one parent object in the changed/deleted sweep of
`compare_vmfs` (vmf.py lines 1150-1295). -/
def compareOldObject (childSt : VmfState) (acc : CompareAcc)
    (co : VmfClass × Obj) : Except VErr CompareAcc := do
  let id ← getIdProp co.2 (idPropName co.1)
  match getObject childSt co.1 id with
  | .error _ => do
      let childInfos ← iterSubObjectInfos acc.parentSt co.1 id
      let d := if childInfos.isEmpty then Delta.RemoveObject co.1 id none
               else Delta.RemoveObject co.1 id (some childInfos)
      .ok { acc with deltas := acc.deltas ++ [d] }
  | .ok co2 => do
      let acc ←
        if co.1 = .visgroup then
          let pp := getObjectParentInfo acc.parentSt co.1 id
          let cp := getObjectParentInfo childSt co.1 id
          if pp ≠ cp then
            let newParentId := match cp with
              | none => none
              | some info => some info.2
            Except.ok { acc with
              deltas := acc.deltas ++ [Delta.MoveVisGroup id newParentId] }
          else Except.ok acc
        else do
          let vgP ← getObjectVisgroups co.2
          let vgC ← getObjectVisgroups co2
          Except.ok { acc with
            deltas := acc.deltas ++ addVisgroupDeltas co.1 id vgP vgC acc.newIdMap }
      let propsC ← iterProps co2
      let acc ← propsC.foldlM (oldPropNewStep childSt co.1 id co.2 co2) acc
      let propsP ← iterProps co.2
      let acc ← propsP.foldlM (oldPropChangedStep childSt co.1 id co2) acc
      if co.1 = .entity then do
        let outsP ← iterOutputs co.2
        let outsC ← iterOutputs co2
        let pSet := dedupList outsP
        let cSet := dedupList outsC
        let acc ← (cSet.filter (fun x => !(pSet.contains x))).foldlM
          (newOutStep childSt co.1 id) acc
        let acc ← (pSet.filter (fun x => !(cSet.contains x))).foldlM
          (delOutStep childSt co.1 id) acc
        .ok acc
      else .ok acc

/-- The newly-tied-solids loop body (vmf.py lines 1298-1318). -/
def tieStep (parentTies : List (Int × Int))
    (acc : CompareAcc) (se : Int × Int) : Except VErr CompareAcc :=
  match alookup parentTies se.1 with
  | none =>
      if (alookup acc.newIdMap (.solid, se.1)).isSome then .ok acc
      else
        match alookup acc.newIdMap (.entity, se.2) with
        | some nid =>
            .ok { acc with deltas := acc.deltas ++ [Delta.TieSolid se.1 nid] }
        | none => .error .keyError
  | some e0 =>
      if e0 ≠ se.2 then
        .ok { acc with
          deltas := acc.deltas
            ++ [Delta.UntieSolid se.1,
                Delta.TieSolid se.1 ((alookup acc.newIdMap (.entity, se.2)).getD se.2)] }
      else .ok acc

/-- The untied-solids loop body (vmf.py lines 1321-1324). -/
def untieStep (childTies : List (Int × Int))
    (acc : CompareAcc) (se : Int × Int) : Except VErr CompareAcc :=
  if (alookup childTies se.1).isSome then .ok acc
  else .ok { acc with deltas := acc.deltas ++ [Delta.UntieSolid se.1] }

/-- Python `str.split()` with no argument: split on runs of whitespace,
dropping empty pieces. -/
def splitWsGo : List Char → List Char → List String
  | [], cur => if cur.isEmpty then [] else [String.mk cur.reverse]
  | ch :: rest, cur =>
      if ch = ' ' ∨ ch = '\t' ∨ ch = '\n' ∨ ch = '\r' then
        if cur.isEmpty then splitWsGo rest []
        else String.mk cur.reverse :: splitWsGo rest []
      else splitWsGo rest (ch :: cur)

/-- See `splitWsGo`. -/
def splitWs (s : String) : List String := splitWsGo s.data []

/-- Python `' '.join`. -/
def joinSpace : List String → String
  | [] => ""
  | [x] => x
  | x :: rest => x ++ " " ++ joinSpace rest

/-- The sides fixup of one recorded delta (vmf.py lines 1328-1346): assert it
is an entity AddProperty/ChangeProperty on the `sides` key, split its string
value into side ids and remap each through `newIdForNewChildObject` (a
non-string value has no `split`: AttributeError; a non-numeric piece fails
`int`: ValueError). -/
def fixupSide (newIdMap : List ((VmfClass × Int) × Int)) : Delta → Except VErr Delta
  | .AddProperty c id k v =>
      if c = .entity ∧ k = ["sides"] then
        match v with
        | .str s => do
            let ids ← (splitWs s).mapM (fun w =>
              match parsePyInt w with
              | some n => Except.ok n
              | none => Except.error VErr.valueError)
            .ok (.AddProperty c id k (.str (joinSpace (ids.map (fun n =>
              toString ((alookup newIdMap (.side, n)).getD n))))))
        | _ => .error .attributeError
      else .error .assertionError
  | .ChangeProperty c id k v =>
      if c = .entity ∧ k = ["sides"] then
        match v with
        | .str s => do
            let ids ← (splitWs s).mapM (fun w =>
              match parsePyInt w with
              | some n => Except.ok n
              | none => Except.error VErr.valueError)
            .ok (.ChangeProperty c id k (.str (joinSpace (ids.map (fun n =>
              toString ((alookup newIdMap (.side, n)).getD n))))))
        | _ => .error .attributeError
      else .error .assertionError
  | _ => .error .assertionError

/-- `compare_vmfs` (vmf.py lines 966-1349): the new-objects sweep over the
child, the changed/deleted sweep over the (possibly counter-mutated) parent,
the tie and untie sweeps, and the sides fixup pass.  Returns the delta list
together with the parent VMF, whose per-class counters `next_available_id`
mutates as a documented side effect. -/
def compareVmfs (parentSt childSt : VmfState) :
    Except VErr (List Delta × VmfState) := do
  let acc0 : CompareAcc := ⟨[], [], [], [], parentSt⟩
  let acc ← (iterObjects childSt).foldlM (compareNewObject childSt) acc0
  let acc ← (iterObjects acc.parentSt).foldlM (compareOldObject childSt) acc
  let acc ← childSt.entityIdForSolidId.foldlM
    (tieStep acc.parentSt.entityIdForSolidId) acc
  let acc ← acc.parentSt.entityIdForSolidId.foldlM
    (untieStep childSt.entityIdForSolidId) acc
  let deltas ← acc.sidesIdx.foldlM (fun ds i =>
      match ds[i]? with
      | some d => do
          let d2 ← fixupSide acc.newIdMap d
          Except.ok (ds.set i d2)
      | none => Except.error VErr.assertionError) acc.deltas
  .ok (deltas, acc.parentSt)

/-- A parent map with two top-level VisGroups (ids 9 and 5). -/
def c3Parent : VmfState :=
  { vmfData := [("versioninfo", .obj [("mapversion", .str "1")]),
                ("visgroups", .obj [("visgroup",
                  .list [.ref .visgroup 9, .ref .visgroup 5])]),
                ("world", .ref .world 1)],
    revision := 1,
    world := [("id", .str "1")],
    solidsById := [],
    sidesById := [],
    groupsById := [],
    entitiesById := [],
    visGroupsById := [(9, [("name", .str "A"), ("visgroupid", .str "9")]),
                      (5, [("name", .str "B"), ("visgroupid", .str "5")])],
    entityIdForSolidId := [],
    parentInfoForObject := [],
    lastIdForVmfClass := [(.world, 1), (.visgroup, 9)] }

/-- The same map except that VisGroup 5 is nested under VisGroup 9. -/
def c3Child : VmfState :=
  { c3Parent with parentInfoForObject := [((.visgroup, 5), (.visgroup, 9))] }

/-- C3: on a parent/child pair whose only difference is that VisGroup 5 is
top-level in the parent and nested under VisGroup 9 in the child,
`compare_vmfs` emits a `MoveVisGroup(5, 9)` delta — the class that vmfdelta.py
comments out (lines 426-447) while vmf.py still imports and constructs it —
and no `ReparentObject` delta at all, contrary to the spec. -/
theorem c3_visgroup_reparent_emits_movevisgroup :
    ∃ ds, compareVmfs c3Parent c3Child = .ok (ds, c3Parent)
      ∧ ds.contains (Delta.MoveVisGroup 5 (some 9)) = true
      ∧ ds.all (fun d =>
          match d with
          | Delta.ReparentObject _ _ _ => false
          | _ => true) = true := by
  refine ⟨[Delta.MoveVisGroup 5 (some 9)], by decide, by decide, by decide⟩

/-- Success test for `Except`. -/
def isOkE {ε α : Type} : Except ε α → Bool
  | .ok _ => true
  | .error _ => false

/-- Key uniqueness of an association list: Python dicts cannot hold the same
key twice. -/
def nodupKeys {κ β : Type} [BEq κ] : List (κ × β) → Bool
  | [] => true
  | (k, _) :: rest => !(rest.any (fun p => p.1 == k)) && nodupKeys rest

mutual
/-- Dict-shape invariant of parsed VMF values: every object level has
pairwise-distinct keys. -/
def wfVdf : Vdf → Bool
  | .obj entries => wfEntries entries
  | _ => true

/-- See `wfVdf`. -/
def wfEntries : List (String × Vdf) → Bool
  | [] => true
  | (k, v) :: rest =>
      !(rest.any (fun p => p.1 == k)) && wfVdf v && wfEntries rest
end

/-- Invariant of a per-class object table as `VMF.__init__` builds it: keys
are distinct and each object's id property parses back to its key. -/
def wfTable (tbl : List (Int × Obj)) (prop : String) : Bool :=
  nodupKeys tbl && tbl.all (fun p => getIdProp p.2 prop == Except.ok p.1)

/-- Invariant of one loaded object: dict-shaped with unique keys, and the
property, VisGroup-membership and (for entities) output iterations that
`compare_vmfs` runs over it all succeed. -/
def wfObject (c : VmfClass) (o : Obj) : Bool :=
  wfEntries o && isOkE (iterProps o) && isOkE (getObjectVisgroups o)
  && (!(c == .entity) || isOkE (iterOutputs o))

/-- Invariant of a loaded VMF (`VMF.__init__` on a valid file): consistent
per-class tables, a world with a readable id, a duplicate-free tie table, and
well-formed objects. -/
def wfVmf (st : VmfState) : Bool :=
  wfTable st.solidsById "id" && wfTable st.sidesById "id"
  && wfTable st.groupsById "id" && wfTable st.entitiesById "id"
  && wfTable st.visGroupsById "visgroupid"
  && isOkE (getIdProp st.world "id")
  && nodupKeys st.entityIdForSolidId
  && (iterObjects st).all (fun p => wfObject p.1 p.2)

/-- A key present as a binding is found by lookup. -/
theorem alookup_isSome_of_mem {κ β : Type} [BEq κ] [LawfulBEq κ]
    (l : List (κ × β)) (k : κ) (v : β) (h : (k, v) ∈ l) :
    (alookup l k).isSome = true := by
  induction l with
  | nil => cases h
  | cons hd tl ih =>
      rcases List.mem_cons.mp h with h1 | h1
      · subst h1
        simp [alookup, List.find?]
      · by_cases hk : hd.1 == k
        · simp [alookup, List.find?, hk]
        · simp only [alookup, List.find?, hk]
          exact ih h1

/-- A lookup hit comes from a binding whose key tests equal. -/
theorem alookup_mem {κ β : Type} [BEq κ] (l : List (κ × β)) (k : κ) (v : β)
    (h : alookup l k = some v) : ∃ k2, (k2, v) ∈ l ∧ (k2 == k) = true := by
  induction l with
  | nil => cases h
  | cons hd tl ih =>
      by_cases hk : hd.1 == k
      · refine ⟨hd.1, ?_, hk⟩
        simp only [alookup, List.find?, hk, Option.map] at h
        rw [Option.some.injEq] at h
        subst h
        exact List.mem_cons_self hd tl
      · simp only [alookup, List.find?, hk] at h
        obtain ⟨k2, hm, hb⟩ := ih h
        exact ⟨k2, List.mem_cons_of_mem hd hm, hb⟩

/-- With unique keys, looking up a binding's key yields its value. -/
theorem alookup_of_mem_nodup {κ β : Type} [BEq κ] [LawfulBEq κ]
    (l : List (κ × β)) (k : κ) (v : β)
    (hnd : nodupKeys l = true) (hmem : (k, v) ∈ l) : alookup l k = some v := by
  induction l with
  | nil => cases hmem
  | cons hd tl ih =>
      obtain ⟨hd1, hd2⟩ := hd
      simp only [nodupKeys, Bool.and_eq_true, Bool.not_eq_true',
        List.any_eq_false] at hnd
      rcases List.mem_cons.mp hmem with h1 | h1
      · rw [Prod.mk.injEq] at h1
        obtain ⟨e1, e2⟩ := h1
        subst e1
        subst e2
        simp [alookup, List.find?]
      · have hne : (hd1 == k) = false := by
          cases hcb : (hd1 == k)
          · rfl
          · have hkk : hd1 = k := eq_of_beq hcb
            exact absurd (by simp [hkk] : ((k, v).1 == hd1) = true) (hnd.1 (k, v) h1)
        simp only [alookup, List.find?, hne]
        exact ih hnd.2 h1

/-- A fold whose body returns its accumulator unchanged on every element
returns the accumulator. -/
theorem foldlM_id {σ α : Type} (f : σ → α → Except VErr σ) (acc : σ) :
    ∀ l : List α, (∀ x ∈ l, f acc x = .ok acc) → l.foldlM f acc = .ok acc
  | [], _ => rfl
  | x :: xs, h => by
      have hx := h x (List.mem_cons_self x xs)
      simp only [List.foldlM_cons, hx, Except.bind, Bind.bind]
      exact foldlM_id f acc xs (fun y hy => h y (List.mem_cons_of_mem x hy))

/-- Removing from a list every element the list itself contains leaves
nothing: a frozenset minus itself is empty. -/
theorem filter_not_contains_self {α : Type} [BEq α] [LawfulBEq α]
    (l : List α) : l.filter (fun x => !(l.contains x)) = [] := by
  rw [List.filter_eq_nil_iff]
  intro a ha
  simp [ha]

/-- The VisGroup difference of a collection with itself produces no deltas. -/
theorem addVisgroupDeltas_self (c : VmfClass) (id : Int) (s : List Int)
    (m : List ((VmfClass × Int) × Int)) : addVisgroupDeltas c id s s m = [] := by
  simp only [addVisgroupDeltas, filter_not_contains_self, List.map_nil,
    List.append_nil]

/-- Walking into a looked-up entry. -/
theorem objectHasProperty_obj_cons (entries : List (String × Vdf)) (k : String)
    (u : Vdf) (p : List String) (h : alookup entries k = some u) :
    objectHasProperty (.obj entries) (k :: p) = objectHasProperty u p := by
  simp [objectHasProperty, h]

/-- Walking into a looked-up entry. -/
theorem getObjectProperty_obj_cons (entries : List (String × Vdf)) (k : String)
    (u : Vdf) (p : List String) (h : alookup entries k = some u) :
    getObjectProperty (.obj entries) (k :: p) = getObjectProperty u p := by
  simp [getObjectProperty, h]

mutual
/-- Every path yielded by `iter_properties` on a duplicate-free object is
present in the object and reads back the yielded value. -/
theorem iterProps_sound : ∀ (entries : List (String × Vdf))
    (ps : List (List String × Vdf)),
    wfEntries entries = true → iterProps entries = Except.ok ps →
    ∀ kv, kv ∈ ps →
      objectHasProperty (Vdf.obj entries) kv.1 = .ok true
      ∧ getObjectProperty (Vdf.obj entries) kv.1 = .ok kv.2
      ∧ ∃ k2 p u, kv.1 = k2 :: p ∧ alookup entries k2 = some u
  | [], ps, _, h, kv, hkv => by
      simp only [iterProps] at h
      rw [Except.ok.injEq] at h
      subst h
      cases hkv
  | (k, v) :: rest, ps, hwf, h, kv, hkv => by
      simp only [wfEntries, Bool.and_eq_true, Bool.not_eq_true',
        List.any_eq_false] at hwf
      obtain ⟨⟨hk, hv⟩, hrest⟩ := hwf
      simp only [iterProps, Except.bind, Bind.bind] at h
      cases hone : iterPropsOne k v with
      | error e =>
          simp only [hone] at h
          exact Except.noConfusion h
      | ok here =>
        simp only [hone] at h
        cases htail : iterProps rest with
        | error e =>
            simp only [htail] at h
            exact Except.noConfusion h
        | ok tail =>
            simp only [htail] at h
            rw [Except.ok.injEq] at h
            subst h
            rcases List.mem_append.mp hkv with hmem | hmem
            · obtain ⟨p, hp1, hpHas, hpGet⟩ :=
                iterPropsOne_sound k v here hv hone kv hmem
              have halk : alookup ((k, v) :: rest) k = some v := by
                simp [alookup, List.find?]
              refine ⟨?_, ?_, k, p, v, hp1, halk⟩
              · rw [hp1, objectHasProperty_obj_cons _ _ _ _ halk]
                exact hpHas
              · rw [hp1, getObjectProperty_obj_cons _ _ _ _ halk]
                exact hpGet
            · obtain ⟨hHas, hGet, k2, p, u, hkv1, hlk⟩ :=
                iterProps_sound rest tail hrest htail kv hmem
              have hne : (k == k2) = false := by
                cases hcb : (k == k2)
                · rfl
                · exfalso
                  obtain ⟨k3, hm3, hb3⟩ := alookup_mem rest k2 u hlk
                  have e1 : k = k2 := eq_of_beq hcb
                  subst e1
                  exact (hk (k3, u) hm3) hb3
              have hcons : alookup ((k, v) :: rest) k2 = some u := by
                simp only [alookup, List.find?, hne]
                exact hlk
              rw [hkv1, objectHasProperty_obj_cons _ _ _ _ hlk] at hHas
              rw [hkv1, getObjectProperty_obj_cons _ _ _ _ hlk] at hGet
              refine ⟨?_, ?_, k2, p, u, hkv1, hcons⟩
              · rw [hkv1, objectHasProperty_obj_cons _ _ _ _ hcons]
                exact hHas
              · rw [hkv1, getObjectProperty_obj_cons _ _ _ _ hcons]
                exact hGet

/-- Per-binding part of `iterProps_sound`. -/
theorem iterPropsOne_sound : ∀ (k : String) (v : Vdf)
    (ps : List (List String × Vdf)),
    wfVdf v = true → iterPropsOne k v = Except.ok ps →
    ∀ kv, kv ∈ ps → ∃ p, kv.1 = k :: p
      ∧ objectHasProperty v p = .ok true
      ∧ getObjectProperty v p = .ok kv.2
  | k, .str s, ps, _, h, kv, hkv => by
      simp only [iterPropsOne] at h
      rw [Except.ok.injEq] at h
      subst h
      by_cases hinc : includeProp k (Vdf.str s) = true
      · rw [if_pos hinc] at hkv
        have he := List.mem_singleton.mp hkv
        subst he
        exact ⟨[], rfl, rfl, rfl⟩
      · rw [if_neg hinc] at hkv
        cases hkv
  | k, .list l, ps, _, h, kv, hkv => by
      simp only [iterPropsOne] at h
      rw [Except.ok.injEq] at h
      subst h
      by_cases hinc : includeProp k (Vdf.list l) = true
      · rw [if_pos hinc] at hkv
        have he := List.mem_singleton.mp hkv
        subst he
        exact ⟨[], rfl, rfl, rfl⟩
      · rw [if_neg hinc] at hkv
        cases hkv
  | k, .int n, ps, _, h, kv, hkv => by
      simp only [iterPropsOne] at h
      by_cases hinc : includeProp k (Vdf.int n) = true
      · rw [if_pos hinc] at h
        simp at h
      · rw [if_neg hinc] at h
        rw [Except.ok.injEq] at h
        subst h
        cases hkv
  | k, .ref c i, ps, _, h, kv, hkv => by
      simp only [iterPropsOne] at h
      by_cases hinc : includeProp k (Vdf.ref c i) = true
      · rw [if_pos hinc] at h
        simp at h
      · rw [if_neg hinc] at h
        rw [Except.ok.injEq] at h
        subst h
        cases hkv
  | k, .obj sub, ps, hwf, h, kv, hkv => by
      simp only [iterPropsOne] at h
      by_cases hinc : includeProp k (Vdf.obj sub) = true
      · rw [if_pos hinc] at h
        simp only [Except.bind, Bind.bind] at h
        cases hsub : iterProps sub with
        | error e =>
            simp only [hsub] at h
            exact Except.noConfusion h
        | ok subs =>
            simp only [hsub] at h
            rw [Except.ok.injEq] at h
            subst h
            obtain ⟨q, hq, hq2⟩ := List.mem_map.mp hkv
            have hs := iterProps_sound sub subs (by simpa [wfVdf] using hwf)
              hsub q hq
            subst hq2
            exact ⟨q.1, rfl, hs.1, hs.2.1⟩
      · rw [if_neg hinc] at h
        rw [Except.ok.injEq] at h
        subst h
        cases hkv
end

/-- An object the parent already has contributes nothing to the new-objects
sweep. -/
theorem compareNewObject_self (st : VmfState) (c : VmfClass) (o : Obj) (id : Int)
    (hid : getIdProp o (idPropName c) = .ok id)
    (hhas : hasObject st c id = .ok true) :
    compareNewObject st ⟨[], [], [], [], st⟩ (c, o) = .ok ⟨[], [], [], [], st⟩ := by
  simp [compareNewObject, hid, hhas, Except.bind, Bind.bind]

/-- Diffing a well-formed object against itself contributes nothing to the
changed/deleted sweep. -/
theorem compareOldObject_self (st : VmfState) (c : VmfClass) (o : Obj) (id : Int)
    (hid : getIdProp o (idPropName c) = .ok id)
    (hget : getObject st c id = .ok o)
    (hwfo : wfObject c o = true) :
    compareOldObject st ⟨[], [], [], [], st⟩ (c, o) = .ok ⟨[], [], [], [], st⟩ := by
  simp only [wfObject, Bool.and_eq_true] at hwfo
  obtain ⟨⟨⟨hwfE, hwfP⟩, hwfV⟩, hwfO⟩ := hwfo
  obtain ⟨ps, hps⟩ : ∃ ps, iterProps o = .ok ps := by
    cases hx : iterProps o
    · rw [hx] at hwfP
      simp [isOkE] at hwfP
    · exact ⟨_, rfl⟩
  obtain ⟨vg, hvg⟩ : ∃ vg, getObjectVisgroups o = .ok vg := by
    cases hx : getObjectVisgroups o
    · rw [hx] at hwfV
      simp [isOkE] at hwfV
    · exact ⟨_, rfl⟩
  have hpropNew : ∀ kv ∈ ps,
      oldPropNewStep st c id o o ⟨[], [], [], [], st⟩ kv
        = .ok ⟨[], [], [], [], st⟩ := by
    intro kv hkv
    have hs := iterProps_sound o ps hwfE hps kv hkv
    by_cases hvp : kv.1 = visgroupPath
    · simp [oldPropNewStep, hvp]
    · simp [oldPropNewStep, hvp, hs.1, Except.bind, Bind.bind]
  have hpropChg : ∀ kv ∈ ps,
      oldPropChangedStep st c id o ⟨[], [], [], [], st⟩ kv
        = .ok ⟨[], [], [], [], st⟩ := by
    intro kv hkv
    have hs := iterProps_sound o ps hwfE hps kv hkv
    by_cases hvp : kv.1 = visgroupPath
    · simp [oldPropChangedStep, hvp]
    · simp [oldPropChangedStep, hvp, hs.2.1]
  have hfold1 : ps.foldlM (oldPropNewStep st c id o o) ⟨[], [], [], [], st⟩
      = .ok ⟨[], [], [], [], st⟩ := foldlM_id _ _ ps hpropNew
  have hfold2 : ps.foldlM (oldPropChangedStep st c id o) ⟨[], [], [], [], st⟩
      = .ok ⟨[], [], [], [], st⟩ := foldlM_id _ _ ps hpropChg
  by_cases hc : c = VmfClass.visgroup
  · subst hc
    simp [compareOldObject, hid, hget, hps, hfold1, hfold2,
      Except.bind, Bind.bind]
  · by_cases he : c = VmfClass.entity
    · subst he
      obtain ⟨outs, houts⟩ : ∃ outs, iterOutputs o = .ok outs := by
        simp only [beq_self_eq_true, Bool.not_true, Bool.false_or] at hwfO
        cases hx : iterOutputs o
        · rw [hx] at hwfO
          simp [isOkE] at hwfO
        · exact ⟨_, rfl⟩
      have hfe : (dedupList outs).filter
          (fun x => !decide (x ∈ dedupList outs)) = [] := by
        rw [List.filter_eq_nil_iff]
        intro a ha
        simp [ha]
      simp [compareOldObject, hid, hget, hps, hvg, addVisgroupDeltas_self,
        hfold1, hfold2, houts, hfe,
        Except.bind, Bind.bind, Except.pure, Pure.pure]
    · simp [compareOldObject, hid, hget, hc, he, hps, hvg,
        addVisgroupDeltas_self, hfold1, hfold2,
        Except.bind, Bind.bind]

/-- A `wfTable` fact unpacked. -/
theorem wfTable_facts (tbl : List (Int × Obj)) (prop : String)
    (hw : wfTable tbl prop = true) :
    nodupKeys tbl = true ∧ ∀ p ∈ tbl, getIdProp p.2 prop = Except.ok p.1 := by
  simp only [wfTable, Bool.and_eq_true, List.all_eq_true] at hw
  refine ⟨hw.1, fun p hp => ?_⟩
  exact of_decide_eq_true (hw.2 p hp)

/-- C4: on every well-formed loaded map, diffing the map against itself
yields the empty delta list (and leaves the map untouched, counters
included), and applying the empty delta list with the revision increment
disabled returns the map unchanged.  (With the increment left at its
default the map does change; see the counterexample.) -/
theorem c4_self_diff_empty_identity_apply (st : VmfState)
    (h : wfVmf st = true) :
    compareVmfs st st = .ok ([], st) ∧ applyDeltas st [] false = .ok st := by
  refine ⟨?_, rfl⟩
  simp only [wfVmf, Bool.and_eq_true] at h
  obtain ⟨⟨⟨⟨⟨⟨⟨hS, hSi⟩, hG⟩, hE⟩, hV⟩, hW⟩, hT⟩, hAll⟩ := h
  rw [List.all_eq_true] at hAll
  obtain ⟨wid, hwid⟩ : ∃ wid, getIdProp st.world "id" = .ok wid := by
    cases hx : getIdProp st.world "id"
    · rw [hx] at hW
      simp [isOkE] at hW
    · exact ⟨_, rfl⟩
  have hnew : ∀ x ∈ iterObjects st,
      compareNewObject st ⟨[], [], [], [], st⟩ x = .ok ⟨[], [], [], [], st⟩ := by
    intro x hx
    simp only [iterObjects, List.mem_append, List.mem_map,
      List.mem_singleton] at hx
    rcases hx with ((((⟨p, hp, hpx⟩ | ⟨p, hp, hpx⟩) | hpx) | ⟨p, hp, hpx⟩) |
        ⟨p, hp, hpx⟩) | ⟨p, hp, hpx⟩
    · subst hpx
      exact compareNewObject_self st .visgroup p.2 p.1
        (by simpa [idPropName] using (wfTable_facts _ _ hV).2 p hp)
        (by simp [hasObject,
          alookup_isSome_of_mem st.visGroupsById p.1 p.2 (by simpa using hp)])
    · subst hpx
      exact compareNewObject_self st .group p.2 p.1
        (by simpa [idPropName] using (wfTable_facts _ _ hG).2 p hp)
        (by simp [hasObject,
          alookup_isSome_of_mem st.groupsById p.1 p.2 (by simpa using hp)])
    · subst hpx
      exact compareNewObject_self st .world st.world wid
        (by simpa [idPropName] using hwid)
        (by simp [hasObject, hwid, Except.bind, Bind.bind])
    · subst hpx
      exact compareNewObject_self st .entity p.2 p.1
        (by simpa [idPropName] using (wfTable_facts _ _ hE).2 p hp)
        (by simp [hasObject,
          alookup_isSome_of_mem st.entitiesById p.1 p.2 (by simpa using hp)])
    · subst hpx
      exact compareNewObject_self st .solid p.2 p.1
        (by simpa [idPropName] using (wfTable_facts _ _ hS).2 p hp)
        (by simp [hasObject,
          alookup_isSome_of_mem st.solidsById p.1 p.2 (by simpa using hp)])
    · subst hpx
      exact compareNewObject_self st .side p.2 p.1
        (by simpa [idPropName] using (wfTable_facts _ _ hSi).2 p hp)
        (by simp [hasObject,
          alookup_isSome_of_mem st.sidesById p.1 p.2 (by simpa using hp)])
  have hold : ∀ x ∈ iterObjects st,
      compareOldObject st ⟨[], [], [], [], st⟩ x = .ok ⟨[], [], [], [], st⟩ := by
    intro x hx
    have hwfo := hAll x hx
    simp only [iterObjects, List.mem_append, List.mem_map,
      List.mem_singleton] at hx
    rcases hx with ((((⟨p, hp, hpx⟩ | ⟨p, hp, hpx⟩) | hpx) | ⟨p, hp, hpx⟩) |
        ⟨p, hp, hpx⟩) | ⟨p, hp, hpx⟩
    · subst hpx
      exact compareOldObject_self st .visgroup p.2 p.1
        (by simpa [idPropName] using (wfTable_facts _ _ hV).2 p hp)
        (by simp [getObject, alookup_of_mem_nodup st.visGroupsById p.1 p.2
          (wfTable_facts _ _ hV).1 (by simpa using hp)])
        hwfo
    · subst hpx
      exact compareOldObject_self st .group p.2 p.1
        (by simpa [idPropName] using (wfTable_facts _ _ hG).2 p hp)
        (by simp [getObject, alookup_of_mem_nodup st.groupsById p.1 p.2
          (wfTable_facts _ _ hG).1 (by simpa using hp)])
        hwfo
    · subst hpx
      exact compareOldObject_self st .world st.world wid
        (by simpa [idPropName] using hwid) rfl hwfo
    · subst hpx
      exact compareOldObject_self st .entity p.2 p.1
        (by simpa [idPropName] using (wfTable_facts _ _ hE).2 p hp)
        (by simp [getObject, alookup_of_mem_nodup st.entitiesById p.1 p.2
          (wfTable_facts _ _ hE).1 (by simpa using hp)])
        hwfo
    · subst hpx
      exact compareOldObject_self st .solid p.2 p.1
        (by simpa [idPropName] using (wfTable_facts _ _ hS).2 p hp)
        (by simp [getObject, alookup_of_mem_nodup st.solidsById p.1 p.2
          (wfTable_facts _ _ hS).1 (by simpa using hp)])
        hwfo
    · subst hpx
      exact compareOldObject_self st .side p.2 p.1
        (by simpa [idPropName] using (wfTable_facts _ _ hSi).2 p hp)
        (by simp [getObject, alookup_of_mem_nodup st.sidesById p.1 p.2
          (wfTable_facts _ _ hSi).1 (by simpa using hp)])
        hwfo
  have htie : ∀ se ∈ st.entityIdForSolidId,
      tieStep st.entityIdForSolidId ⟨[], [], [], [], st⟩ se
        = .ok ⟨[], [], [], [], st⟩ := by
    intro se hse
    have hl : alookup st.entityIdForSolidId se.1 = some se.2 :=
      alookup_of_mem_nodup _ _ _ hT (by simpa using hse)
    simp [tieStep, hl]
  have huntie : ∀ se ∈ st.entityIdForSolidId,
      untieStep st.entityIdForSolidId ⟨[], [], [], [], st⟩ se
        = .ok ⟨[], [], [], [], st⟩ := by
    intro se hse
    simp [untieStep,
      alookup_isSome_of_mem st.entityIdForSolidId se.1 se.2 (by simpa using hse)]
  have h1 := foldlM_id _ _ (iterObjects st) hnew
  have h2 := foldlM_id _ _ (iterObjects st) hold
  have h3 := foldlM_id _ _ st.entityIdForSolidId htie
  have h4 := foldlM_id _ _ st.entityIdForSolidId huntie
  simp [compareVmfs, h1, h2, h3, h4,
    Except.bind, Bind.bind, Except.pure, Pure.pure]

/-- Counterexample for C4 as stated: on a concrete well-formed map the
self-diff is empty, but applying it through `apply_deltas` with the default
`incrementRevision=True` bumps the revision and the `mapversion` fields, so
the result is not equal to the original map. -/
theorem c4_counterexample :
    wfVmf c3Parent = true
    ∧ compareVmfs c3Parent c3Parent = .ok ([], c3Parent)
    ∧ applyDeltas c3Parent [] true ≠ .ok c3Parent := by
  refine ⟨by decide, by decide, by decide⟩

/-- Witness for C4: the amended theorem instantiated at the concrete map
`c3Parent`. -/
theorem c4_self_diff_empty_identity_apply_witness :
    wfVmf c3Parent = true
    ∧ (compareVmfs c3Parent c3Parent = .ok ([], c3Parent)
        ∧ applyDeltas c3Parent [] false = .ok c3Parent) :=
  ⟨by decide, c4_self_diff_empty_identity_apply c3Parent (by decide)⟩

end VMFTool
